import Mathlib

/-!
Verification of the caido-community scanner scan runner.

This file shallowly embeds the scan runner of the repository
(`createRunnable`, `getCheckBatches`, `isCheckApplicable`, `processBatch`,
the task interpreter of `packages/engine/src/core/execution.ts`, the
`estimate` operation, the CSP parser and the `csp-untrusted-script` check)
and proves properties of the embedding.

Modelling conventions:
- JavaScript `Map` objects become association lists with JS `Map` insertion
  order semantics (`mapSet` replaces in place, otherwise appends);
  JS `Set` objects become duplicate-free lists in insertion order.
- The cooperative single-threaded async runtime is embedded sequentially:
  promise pools run their items one after the other in submission order.
  Claims about wall-clock time (timeouts, request spacing) are outside the
  embedding; the `scanTimeout`/`checkTimeout` race is not modelled.
- Check step functions may fail; a thrown JS value is `StepThrow`.
- Machine integers do not occur on the modelled paths (all counts are
  small naturals), so `Nat` is used directly.
-/

/-! ## Association lists with JS `Map` semantics -/

/-- `Map.get`: first entry with the given key (JS maps have unique keys). -/
def mapGet {α : Type} (m : List (String × α)) (k : String) : Option α :=
  match m with
  | [] => none
  | e :: rest => if e.1 = k then some e.2 else mapGet rest k

/-- `Map.set`: replace the entry in place when the key exists, append otherwise. -/
def mapSet {α : Type} (m : List (String × α)) (k : String) (v : α) : List (String × α) :=
  match m with
  | [] => [(k, v)]
  | e :: rest => if e.1 = k then (k, v) :: rest else e :: mapSet rest k v

/-- `Map.delete`: remove the entry with the given key. -/
def mapDelete {α : Type} (m : List (String × α)) (k : String) : List (String × α) :=
  match m with
  | [] => []
  | e :: rest => if e.1 = k then rest else e :: mapDelete rest k

/-- `Set.add` for a JS string set kept in insertion order. -/
def setAdd (s : List String) (k : String) : List String :=
  if k ∈ s then s else s ++ [k]

/-! ## String helpers (the JS string operations used by the sources) -/

/-- The apostrophe character; written via its code point because of the
CSP source-list keywords it occurs in. -/
def aposChar : Char := Char.ofNat 39

/-- The apostrophe as a one-character string. -/
def aposStr : String := aposChar.toString

/-- `listIsPrefixOf xs ys`: `xs` is a prefix of `ys`. -/
def listIsPrefixOf (xs ys : List Char) : Bool :=
  match xs, ys with
  | [], _ => true
  | _ :: _, [] => false
  | x :: xs, y :: ys => x == y && listIsPrefixOf xs ys

/-- Substring occurrence over character lists. -/
def listContainsSub (hay pat : List Char) : Bool :=
  match hay with
  | [] => listIsPrefixOf pat []
  | _ :: rest => listIsPrefixOf pat hay || listContainsSub rest pat

/-- JS `String.prototype.includes`. -/
def jsIncludes (s pat : String) : Bool :=
  listContainsSub s.data pat.data

/-- JS `String.prototype.startsWith`. -/
def jsStartsWith (s pat : String) : Bool :=
  listIsPrefixOf pat.data s.data

/-- JS `String.prototype.trim` (ASCII whitespace suffices for the inputs used). -/
def jsTrim (s : String) : String :=
  String.mk (((s.data.dropWhile Char.isWhitespace).reverse.dropWhile Char.isWhitespace).reverse)

/-- Split a character list at every separator character (keeping empty pieces,
like JS `split(";")`). -/
def splitCharsAt (sep : Char) (l : List Char) : List (List Char) :=
  match l with
  | [] => [[]]
  | c :: rest =>
    let r := splitCharsAt sep rest
    if c == sep then [] :: r
    else
      match r with
      | [] => [[c]]
      | piece :: pieces => (c :: piece) :: pieces

/-- JS `split(";")`. -/
def jsSplitSemicolon (s : String) : List String :=
  (splitCharsAt ';' s.data).map String.mk

/-- JS `split(/\s+/)` restricted to already-trimmed nonempty input: splitting at
whitespace characters followed by dropping empty pieces yields the same tokens. -/
def jsSplitWhitespace (s : String) : List String :=
  (((s.data.splitOnP Char.isWhitespace)).map String.mk).filter (fun p => p ≠ "")

/-! ## Findings and severities (`types/finding.ts`) -/

/-- `Severity`. -/
inductive Severity where
  | info
  | low
  | medium
  | high
  | critical
deriving DecidableEq, Repr

/-- A finding location `{start, end, hint?}`. -/
structure FindingLocation where
  start : Nat
  «end» : Nat
  hint : Option String
deriving DecidableEq, Repr

/-- `Finding.correlation`. -/
structure Correlation where
  requestID : String
  locations : List FindingLocation
deriving DecidableEq, Repr

/-- `Finding`. -/
structure Finding where
  name : String
  description : String
  severity : Severity
  correlation : Correlation
deriving DecidableEq, Repr

/-! ## JSON-serializable values (check state and outputs) -/

/-- `JSONSerializable` check state / `CheckOutput` values. -/
inductive JsonValue where
  | null
  | bool (b : Bool)
  | num (n : Int)
  | str (s : String)
  | arr (elems : List JsonValue)
  | obj (fields : List (String × JsonValue))

/-! ## Host request/response data (the host SDK surface used by the core) -/

/-- The captured request fields the scanner reads. -/
structure Request where
  id : String
  host : String
  port : Nat
  path : String
deriving DecidableEq, Repr

/-- `Request.getId()`. -/
def Request.getId (r : Request) : String := r.id

/-- The captured response fields the scanner reads. -/
structure Response where
  code : Nat
  headers : List (String × List String)
  body : Option String
deriving DecidableEq, Repr

/-- `Response.getHeader(name)`: the header's value list, or `undefined`. -/
def Response.getHeader (r : Response) (name : String) : Option (List String) :=
  (r.headers.find? (fun h => h.1 == name)).map (fun h => h.2)

/-- `ScanTarget = {request, response?}`. -/
structure ScanTarget where
  request : Request
  response : Option Response
deriving DecidableEq, Repr

/-! ## CSP parser (`parsers/csp.ts`, the split-based variant) -/

/-- `CSPDirective`. -/
structure CSPDirective where
  name : String
  values : List String
deriving DecidableEq, Repr

/-- `ParsedCSP`. -/
structure ParsedCSP where
  directives : List CSPDirective
  raw : String
deriving DecidableEq, Repr

/-- One directive string (already nonempty and trimmed) to a `CSPDirective`:
`parts = directiveString.split(/\s+/)`, the head is the name, the tail the values. -/
def parseDirectiveString (directiveString : String) : Option CSPDirective :=
  match jsSplitWhitespace directiveString with
  | [] => none
  | name :: rest =>
    some { name := jsTrim name
           values := (rest.map jsTrim).filter (fun v => v ≠ "") }

/-- `CSPParser.parse`. -/
def CSPParser.parse (cspHeader : String) : ParsedCSP :=
  if cspHeader = "" ∨ jsTrim cspHeader = "" then
    { directives := [], raw := cspHeader }
  else
    let directiveStrings := ((jsSplitSemicolon cspHeader).map jsTrim).filter (fun d => d ≠ "")
    { directives := directiveStrings.filterMap parseDirectiveString
      raw := cspHeader }

/-! ## Errors (`core/errors.ts` is not under `src/`; modelled from the spec) -/

/-- Modelled from the spec: `ScanRunnableErrorCode`, the stable error-code
strings of §7 of the specification (`core/errors.ts` is missing from the
sources; only its uses appear). -/
inductive ScanRunnableErrorCode where
  | requestNotFound
  | unknownDependency
  | cyclicDependencies
  | checkTimeout
  | unknownCheckError
  | scanAlreadyRunning
deriving DecidableEq, Repr

/-- A JS value thrown by the planner or by check code. `runnable` is
`ScanRunnableError` (carries a code), `jsError` a plain `Error` (message
only, no code), `nonError` any non-`Error` thrown value.
`ScanRunnableInterruptedError` is kept separate from these: in the embedding
interruption is raised only by the executor's entry check, never from inside
check code (the request queue is not part of the embedding). -/
inductive Thrown where
  | runnable (code : ScanRunnableErrorCode) (message : String)
  | jsError (message : String)
  | nonError
deriving DecidableEq, Repr

/-- `InterruptReason`. -/
inductive InterruptReason where
  | cancelled
  | timeout
deriving DecidableEq, Repr

/-! ## Scan configuration (`ScanConfig`) -/

/-- `ScanConfig`. Timeouts are carried but not interpreted: the embedding has
no wall clock. -/
structure ScanConfig where
  aggressivity : Nat
  severities : List Severity
  inScopeOnly : Bool
  concurrentTargets : Nat
  concurrentChecks : Nat
  concurrentRequests : Nat
  requestsDelayMs : Nat
  scanTimeout : Nat
  checkTimeout : Nat
deriving DecidableEq, Repr

/-! ## Check definitions and tasks (`types/check.ts` and the engine task
module are not under `src/`; modelled from the spec §3, §6 and §9) -/

/-- The context a step function can read. The live `sdk`/`html` capabilities
are not embedded (no claim touches them); `dependencies` is the runner's
dependency-output map at the time of the tick. -/
structure StepContext where
  target : ScanTarget
  dependencies : List (String × Option JsonValue)
  config : ScanConfig

/-- Modelled from the spec: `StepAction`, the value a step function returns —
`done({state, findings?, output?})` or `continueWith({nextStep, state, findings?})`. -/
inductive StepAction where
  | done (state : JsonValue) (findings : List Finding) (output : Option JsonValue)
  | continueWith (nextStep : String) (state : JsonValue) (findings : List Finding)

/-- A step function: may return a `StepAction` or throw. -/
def StepFun : Type := JsonValue → StepContext → Except Thrown StepAction

/-- `CheckMetadata`. Display-only fields (`description`, `type`, `tags`,
`aggressivity`) are omitted: no embedded code reads them. `skipIfFoundBy`
references a check id per the spec; the runner only truthiness-tests it. -/
structure CheckMetadata where
  id : String
  name : String
  severities : List Severity
  minAggressivity : Option Nat
  dependsOn : Option (List String)
  skipIfFoundBy : Option String

/-- JS truthiness of the optional `skipIfFoundBy` string. -/
def truthyOptStr (o : Option String) : Bool :=
  match o with
  | none => false
  | some s => s ≠ ""

/-- `CheckDefinition`: metadata plus `initState()`, `when?`, `dedupeKey?` and
the registered named steps (`create` instantiates a task at `initialStep`). -/
structure CheckDefinition where
  metadata : CheckMetadata
  initState : JsonValue
  when : Option (ScanTarget → Bool)
  dedupeKey : Option (ScanTarget → String)
  steps : String → Option StepFun
  initialStep : String

/-- Modelled from the spec: a `CheckTask`, the explicit state object
`{stepName, state, output?}` of §9 driven by `tick`. -/
structure CheckTask where
  metadata : CheckMetadata
  steps : String → Option StepFun
  currentStep : Option String
  state : JsonValue
  output : Option JsonValue
  target : ScanTarget

/-- `check.create(context)`. -/
def createTask (check : CheckDefinition) (target : ScanTarget) : CheckTask :=
  { metadata := check.metadata
    steps := check.steps
    currentStep := some check.initialStep
    state := check.initState
    output := none
    target := target }

/-- The status part of the engine `StepResult` as seen by the executor. -/
inductive StepStatus where
  | doneStatus
  | continueStatus
deriving DecidableEq, Repr

/-- The engine `StepResult = {status, findings?}` (`nextStep`/`state` are
read back from the task). -/
structure TaskStepResult where
  status : StepStatus
  findings : List Finding

/-- Modelled from the spec: `task.tick()` — run the current step's function;
on `done` store state and output, on `continueWith` advance the step pointer. -/
def CheckTask.tick (task : CheckTask) (ctx : StepContext) :
    Except Thrown (TaskStepResult × CheckTask) :=
  match task.currentStep with
  | none => .error (.jsError "no current step")
  | some stepName =>
    match task.steps stepName with
    | none => .error (.jsError ("unknown step " ++ stepName))
    | some f =>
      match f task.state ctx with
      | .error e => .error e
      | .ok (.done st fs out) =>
        .ok ({ status := .doneStatus, findings := fs },
             { task with state := st, output := out })
      | .ok (.continueWith nextStep st fs) =>
        .ok ({ status := .continueStatus, findings := fs },
             { task with state := st, currentStep := some nextStep })

/-! ## The `csp-untrusted-script` check (`checks/csp-untrusted-script/index.ts`) -/

/-- `'unsafe-inline'` with its surrounding apostrophes. -/
def unsafeInlineTok : String := aposStr ++ "unsafe-inline" ++ aposStr

/-- `'unsafe-eval'` with its surrounding apostrophes. -/
def unsafeEvalTok : String := aposStr ++ "unsafe-eval" ++ aposStr

/-- Finding name shared by all `csp-untrusted-script` findings. -/
def cspUntrustedName : String :=
  "Content security policy: allows untrusted script execution"

/-- The check's finding for `'unsafe-inline'` (descriptions abbreviated to
their first sentence; the markdown bodies are never read by any code). -/
def cspInlineFinding (t : ScanTarget) : Finding :=
  { name := cspUntrustedName
    description := "The Content Security Policy allows inline scripts with unsafe-inline, which can lead to XSS attacks."
    severity := .high
    correlation := { requestID := t.request.getId, locations := [] } }

/-- The check's finding for `'unsafe-eval'`. -/
def cspEvalFinding (t : ScanTarget) : Finding :=
  { name := cspUntrustedName
    description := "The Content Security Policy allows eval() and similar functions with unsafe-eval, which can lead to code injection attacks."
    severity := .high
    correlation := { requestID := t.request.getId, locations := [] } }

/-- The check's finding for a wildcard source. -/
def cspWildcardFinding (t : ScanTarget) : Finding :=
  { name := cspUntrustedName
    description := "The Content Security Policy allows scripts from any source with wildcard (*), which can lead to XSS attacks."
    severity := .critical
    correlation := { requestID := t.request.getId, locations := [] } }

/-- The check's finding for `data:`/`blob:` sources. -/
def cspDataBlobFinding (t : ScanTarget) : Finding :=
  { name := cspUntrustedName
    description := "The Content Security Policy allows scripts from data: and blob: sources, which can lead to XSS attacks."
    severity := .high
    correlation := { requestID := t.request.getId, locations := [] } }

/-- The check's finding for plain-HTTP sources. -/
def cspHttpFinding (t : ScanTarget) : Finding :=
  { name := cspUntrustedName
    description := "The Content Security Policy allows scripts from HTTP sources, which can be intercepted and modified."
    severity := .medium
    correlation := { requestID := t.request.getId, locations := [] } }

/-- The body of the single step `checkCspUntrustedScript`. -/
def checkCspUntrustedScriptStep : StepFun := fun state context =>
  match context.target.response with
  | none => .ok (.done state [] none)
  | some response =>
    let contentType := (response.getHeader "content-type").elim "" (fun l => (l.head?).getD "")
    if ¬ jsIncludes contentType "text/html" then .ok (.done state [] none)
    else
      match response.getHeader "content-security-policy" with
      | none => .ok (.done state [] none)
      | some cspHeader =>
        if cspHeader.length = 0 then .ok (.done state [] none)
        else
          let cspValue := (cspHeader.head?).getD ""
          let parsedCsp := CSPParser.parse cspValue
          let scriptSrcDirective := parsedCsp.directives.find? (fun d => d.name == "script-src")
          let effectiveDirective :=
            match scriptSrcDirective with
            | some d => some d
            | none => parsedCsp.directives.find? (fun d => d.name == "default-src")
          match effectiveDirective with
          | none => .ok (.done state [] none)
          | some eff =>
            let f1 : List Finding :=
              if eff.values.contains unsafeInlineTok then [cspInlineFinding context.target] else []
            let f2 : List Finding :=
              if eff.values.contains unsafeEvalTok then [cspEvalFinding context.target] else []
            let f3 : List Finding :=
              if eff.values.contains "*" then [cspWildcardFinding context.target] else []
            let unsafeSources := eff.values.filter
              (fun v => jsStartsWith v "data:" || jsStartsWith v "blob:")
            let f4 : List Finding :=
              if unsafeSources.length > 0 then [cspDataBlobFinding context.target] else []
            let httpSources := eff.values.filter
              (fun v => jsStartsWith v "http:" && ¬ jsStartsWith v "https:")
            let f5 : List Finding :=
              if httpSources.length > 0 then [cspHttpFinding context.target] else []
            .ok (.done state (f1 ++ f2 ++ f3 ++ f4 ++ f5) none)

/-- The `csp-untrusted-script` check definition. The dedupe key strategy
`keyStrategy().withHost().withPort().withPath()` is modelled from the spec's
description as host/port/path concatenation (`utils` is not under `src/`). -/
def cspUntrustedScriptCheck : CheckDefinition :=
  { metadata :=
      { id := "csp-untrusted-script"
        name := cspUntrustedName
        severities := [.medium, .high, .critical]
        minAggressivity := none
        dependsOn := none
        skipIfFoundBy := none }
    initState := .obj []
    when := some (fun t =>
      match t.response with
      | none => false
      | some response =>
        jsIncludes ((response.getHeader "content-type").elim "" (fun l => (l.head?).getD "")) "text/html")
    dedupeKey := some (fun t =>
      t.request.host ++ ":" ++ toString t.request.port ++ ":" ++ t.request.path)
    steps := fun nm => if nm = "checkCspUntrustedScript" then some checkCspUntrustedScriptStep else none
    initialStep := "checkCspUntrustedScript" }

/-! ## Check registry & planner (`getCheckBatches` in the runner source) -/

/-- `check.metadata.dependsOn` with JS `undefined` read as no iterations. -/
def depsOf (c : CheckDefinition) : List String :=
  (c.metadata.dependsOn).getD []

/-- The out-adjacency DAG `Record<string, string[]>` as an assoc list in key
insertion order. -/
abbrev Dag : Type := List (String × List String)

/-- `dag[check.metadata.id] = []` for every check, in order. -/
def dagInit (checks : List CheckDefinition) : Dag :=
  checks.map (fun c => (c.metadata.id, []))

/-- `if (!dag[dependencyId]) dag[dependencyId] = []; dag[dependencyId].push(id)`. -/
def dagPush (dag : Dag) (k v : String) : Dag :=
  match mapGet dag k with
  | some succs => mapSet dag k (succs ++ [v])
  | none => dag ++ [(k, [v])]

/-- The planner's unknown-dependency message
`Check '<id>' has unknown dependency '<dep>'`. -/
def unknownDepMsg (checkId depId : String) : String :=
  "Check " ++ aposStr ++ checkId ++ aposStr ++ " has unknown dependency " ++
    aposStr ++ depId ++ aposStr

/-- The inner loop over one check's `dependsOn` list: throw a plain `Error`
on an unregistered dependency, otherwise add the edge `dep → check`. -/
def addEdgesForCheck (ids : List String) (checkId : String) :
    Dag → List String → Except Thrown Dag
  | dag, [] => .ok dag
  | dag, depId :: rest =>
    if ids.contains depId then
      addEdgesForCheck ids checkId (dagPush dag depId checkId) rest
    else
      .error (.jsError (unknownDepMsg checkId depId))

/-- The outer loop over all checks. -/
def addAllEdges (ids : List String) : Dag → List CheckDefinition → Except Thrown Dag
  | dag, [] => .ok dag
  | dag, c :: rest =>
    match addEdgesForCheck ids c.metadata.id dag (depsOf c) with
    | .error e => .error e
    | .ok dag' => addAllEdges ids dag' rest

/-- Build the dependency DAG of `getCheckBatches`. -/
def buildDag (checks : List CheckDefinition) : Except Thrown Dag :=
  addAllEdges (checks.map (fun c => c.metadata.id)) (dagInit checks) checks

/-- Some node of `remaining` has an edge into `n` (current in-degree of `n`
is nonzero in the sub-DAG induced by `remaining`). -/
def hasIncomingFrom (dag : Dag) (remaining : List String) (n : String) : Bool :=
  dag.any (fun e => remaining.contains e.1 && e.2.contains n)

/-- Modelled from the spec: one Kahn batching round — the next batch is every
remaining node of in-degree 0, which is then removed; fuelled recursion
(`batching-toposort-ts` is an external package; §4.A describes the algorithm). -/
def kahnAux (dag : Dag) : Nat → List String → Option (List (List String))
  | 0, remaining => if remaining.isEmpty then some [] else none
  | fuel + 1, remaining =>
    if remaining.isEmpty then some []
    else
      let batch := remaining.filter (fun n => ¬ hasIncomingFrom dag remaining n)
      if batch.isEmpty then none
      else
        match kahnAux dag fuel (remaining.filter (fun n => hasIncomingFrom dag remaining n)) with
        | none => none
        | some rest => some (batch :: rest)

/-- Modelled from the spec: `batchingToposort` — Kahn-style batching over the
DAG's keys; a leftover node means a cycle, reported with a plain `Error`. -/
def batchingToposort (dag : Dag) : Except Thrown (List (List String)) :=
  match kahnAux dag (dag.map (fun e => e.1)).length (dag.map (fun e => e.1)) with
  | some batches => .ok batches
  | none => .error (.jsError "Cycle(s) detected; toposort only works on acyclic graphs")

/-- `new Map(checks.map(check => [check.metadata.id, check]))`. -/
def checkMapOf (checks : List CheckDefinition) : List (String × CheckDefinition) :=
  checks.foldl (fun m c => mapSet m c.metadata.id c) []

/-- Map one id batch back to check definitions
(`checkMap.get(checkId)` with a throw when absent). -/
def resolveBatch (cm : List (String × CheckDefinition)) :
    List String → Except Thrown (List CheckDefinition)
  | [] => .ok []
  | checkId :: rest =>
    match mapGet cm checkId with
    | none => .error (.jsError ("Check " ++ aposStr ++ checkId ++ aposStr ++ " not found in checkMap"))
    | some c =>
      match resolveBatch cm rest with
      | .error e => .error e
      | .ok cs => .ok (c :: cs)

/-- Map every id batch back to check definitions. -/
def resolveBatches (cm : List (String × CheckDefinition)) :
    List (List String) → Except Thrown (List (List CheckDefinition))
  | [] => .ok []
  | batch :: rest =>
    match resolveBatch cm batch with
    | .error e => .error e
    | .ok b =>
      match resolveBatches cm rest with
      | .error e => .error e
      | .ok bs => .ok (b :: bs)

/-- `getCheckBatches`. -/
def getCheckBatches (checks : List CheckDefinition) :
    Except Thrown (List (List CheckDefinition)) :=
  match buildDag checks with
  | .error e => .error e
  | .ok dag =>
    match batchingToposort dag with
    | .error e => .error e
    | .ok batches => resolveBatches (checkMapOf checks) batches

/-! ## Runner state (`createRunnable`'s closure variables) -/

/-- A `StepExecutionRecord`. -/
structure StepExecutionRecord where
  stepName : String
  stateBefore : JsonValue
  stateAfter : JsonValue
  findings : List Finding
  result : StepStatus
  nextStep : Option String

/-- The outcome stored in a `CheckExecutionRecord`. -/
inductive RecordOutcome where
  | completed (finalOutput : Option JsonValue)
  | failed (code : ScanRunnableErrorCode) (message : String)

/-- A `CheckExecutionRecord`. -/
structure CheckExecutionRecord where
  checkId : String
  targetRequestId : String
  steps : List StepExecutionRecord
  outcome : RecordOutcome

/-- An in-flight record of `activeCheckRecords`. -/
structure ActiveRecord where
  checkId : String
  targetRequestId : String
  steps : List StepExecutionRecord

/-- The events of `ScanEvents` (payload fields the runner actually emits). -/
inductive ScanEvent where
  | started
  | finished
  | interruptedEvt (reason : InterruptReason)
  | findingEvt (targetRequestID : String) (checkID : String) (finding : Finding)
  | checkStarted (checkID : String) (targetRequestID : String)
  | checkFinished (checkID : String) (targetRequestID : String)
  | checkFailed (checkID : String) (targetRequestID : String)
      (errorCode : ScanRunnableErrorCode) (errorMessage : String)

/-- The mutable closure state of `createRunnable`. The HTML cache and the
request queue are omitted: no embedded code path reads them. -/
structure RunnerState where
  findings : List (String × List Finding)
  dependencies : List (String × Option JsonValue)
  dedupeKeys : List (String × List String)
  executionHistory : List CheckExecutionRecord
  activeCheckRecords : List (String × ActiveRecord)
  interruptReason : Option InterruptReason
  hasRun : Bool
  events : List ScanEvent

/-- The fresh state built by `createRunnable`. -/
def initialRunnerState : RunnerState :=
  { findings := []
    dependencies := []
    dedupeKeys := []
    executionHistory := []
    activeCheckRecords := []
    interruptReason := none
    hasRun := false
    events := [] }

/-- Append one emitted event. -/
def emitEvent (s : RunnerState) (e : ScanEvent) : RunnerState :=
  { s with events := s.events ++ [e] }

/-- `recordStepExecution`: push a step record onto the active record, when one
exists. -/
def recordStepExecution (s : RunnerState) (checkId targetRequestId : String)
    (rec : StepExecutionRecord) : RunnerState :=
  let key := checkId ++ "-" ++ targetRequestId
  match mapGet s.activeCheckRecords key with
  | none => s
  | some ar =>
    { s with activeCheckRecords :=
        mapSet s.activeCheckRecords key { ar with steps := ar.steps ++ [rec] } }

/-- `createDedupeKeysSnapshot`: a fresh map holding a fresh copy of every key
set (deep copy is the identity on pure values). -/
def createDedupeKeysSnapshot (dedupeKeys : List (String × List String)) :
    List (String × List String) :=
  dedupeKeys.map (fun e => (e.1, e.2))

/-- `isCheckApplicable(check, context, targetDedupeKeys)`: the severity,
aggressivity and `when` filters, then the dedupe test-and-claim on the given
dedupe map (the runner's own map, or the estimator's snapshot). Returns the
verdict and the updated map. -/
def isCheckApplicable (check : CheckDefinition) (target : ScanTarget)
    (config : ScanConfig) (targetDedupeKeys : List (String × List String)) :
    Bool × List (String × List String) :=
  if ¬ check.metadata.severities.any (fun sv => config.severities.contains sv) then
    (false, targetDedupeKeys)
  else if (match check.metadata.minAggressivity with
           | some m => decide (m > config.aggressivity)
           | none => false) then
    (false, targetDedupeKeys)
  else
    match check.when with
    | some w =>
      if ¬ w target then (false, targetDedupeKeys)
      else isCheckApplicableDedupe check target targetDedupeKeys
    | none => isCheckApplicableDedupe check target targetDedupeKeys
where
  /-- The dedupe tail of `isCheckApplicable`. -/
  isCheckApplicableDedupe (check : CheckDefinition) (target : ScanTarget)
      (targetDedupeKeys : List (String × List String)) :
      Bool × List (String × List String) :=
    match check.dedupeKey with
    | none => (true, targetDedupeKeys)
    | some keyFn =>
      let checkId := check.metadata.id
      let key := keyFn target
      let checkCache := (mapGet targetDedupeKeys checkId).getD []
      if checkCache.contains key then (false, targetDedupeKeys)
      else (true, mapSet targetDedupeKeys checkId (setAdd checkCache key))

/-! ## Task interpreter (`core/execution.ts`) -/

/-- The status of one `tick`'s `TaskExecutionResult`. -/
inductive TickStatus where
  | doneTick (output : Option JsonValue)
  | continueTick
  | failedTick (errorCode : ScanRunnableErrorCode) (errorMessage : String)

/-- One `tick`'s `TaskExecutionResult = {findings, status, output?}`. -/
structure SingleTickResult where
  findings : List Finding
  status : TickStatus

/-- The error code the `catch` of `tick` assigns: a `ScanRunnableError`
keeps its code, anything else becomes `UNKNOWN_CHECK_ERROR`. -/
def codeOfThrown (e : Thrown) : ScanRunnableErrorCode :=
  match e with
  | .runnable code _ => code
  | _ => .unknownCheckError

/-- The error message the `catch` of `tick` assigns: an `Error`'s message,
or `"Unknown error occurred"` for a non-`Error` value. -/
def messageOfThrown (e : Thrown) : String :=
  match e with
  | .runnable _ msg => msg
  | .jsError msg => msg
  | .nonError => "Unknown error occurred"

/-- `tick(task)`: raise `ScanRunnableInterruptedError` when an interrupt is
pending; otherwise run `task.tick()`, emit its findings, record a
`StepExecutionRecord`, and map thrown values to `failed` results. -/
def execTick (config : ScanConfig) (s : RunnerState) (task : CheckTask) :
    Except InterruptReason (RunnerState × SingleTickResult × CheckTask) :=
  match s.interruptReason with
  | some r => .error r
  | none =>
    let stateBefore := task.state
    let currentStepName := (task.currentStep).getD "unknown"
    match task.tick { target := task.target, dependencies := s.dependencies, config := config } with
    | .error e =>
      .ok (s,
        { findings := []
          status := .failedTick (codeOfThrown e) (messageOfThrown e) },
        task)
    | .ok (stepRes, task') =>
      let targetRequestID := task.target.request.getId
      let s1 := stepRes.findings.foldl
        (fun acc f => emitEvent acc (.findingEvt targetRequestID task.metadata.id f)) s
      let stepRecord : StepExecutionRecord :=
        { stepName := currentStepName
          stateBefore := stateBefore
          stateAfter := task'.state
          findings := stepRes.findings
          result := stepRes.status
          nextStep :=
            match stepRes.status with
            | .continueStatus => some ((task'.currentStep).getD "unknown")
            | .doneStatus => none }
      let s2 := recordStepExecution s1 task.metadata.id targetRequestID stepRecord
      .ok (s2,
        { findings := stepRes.findings
          status :=
            match stepRes.status with
            | .doneStatus => .doneTick task'.output
            | .continueStatus => .continueTick },
        task')

/-- The value `tickUntilDone` settles with. -/
inductive TaskExecutionResult where
  | doneResult (findings : List Finding) (output : Option JsonValue)
  | failedResult (findings : List Finding) (errorCode : ScanRunnableErrorCode)
      (errorMessage : String)

/-- The outcome of the `tickUntilDone` loop: a settled result, a propagating
interrupt, or fuel exhaustion (the source loops forever on a check that never
finishes; `diverge` models that). -/
inductive LoopOutcome where
  | settled (s : RunnerState) (res : TaskExecutionResult)
  | interruptedLoop (s : RunnerState) (r : InterruptReason)
  | diverge

/-- `tickUntilDone`: tick until `done` or `failed`, accumulating findings. -/
def tickUntilDone (config : ScanConfig) :
    Nat → RunnerState → CheckTask → List Finding → LoopOutcome
  | 0, _, _, _ => .diverge
  | fuel + 1, s, task, allFindings =>
    match execTick config s task with
    | .error r => .interruptedLoop s r
    | .ok (s', res, task') =>
      let allFindings := allFindings ++ res.findings
      match res.status with
      | .continueTick => tickUntilDone config fuel s' task' allFindings
      | .doneTick output => .settled s' (.doneResult allFindings output)
      | .failedTick code msg => .settled s' (.failedResult allFindings code msg)

/-! ## Batch executor (`processBatch`) -/

/-- The applicability filter pass of `processBatch`
(`batch.filter(check => isCheckApplicable(check, context))`), which claims
dedupe keys left to right on the runner's own map. -/
def filterApplicable (config : ScanConfig) (target : ScanTarget) :
    RunnerState → List CheckDefinition → RunnerState × List CheckDefinition
  | s, [] => (s, [])
  | s, check :: rest =>
    let (ok, dk') := isCheckApplicable check target config s.dedupeKeys
    let s' := { s with dedupeKeys := dk' }
    let (s'', kept) := filterApplicable config target s' rest
    if ok then (s'', check :: kept) else (s'', kept)

/-- The outcome of a batch (interrupts are swallowed by `handleError` +
`pool.stop()`, so a batch either completes or diverges). -/
inductive BatchOutcome where
  | batchDone (s : RunnerState)
  | batchDiverge

/-- The bookkeeping `processBatch` performs after a task settles: merge the
task's findings into `findings[checkId]`; on `done` store the dependency
output and push a `completed` record, on `failed` push a `failed` record and
emit `scan:check-failed`. -/
def settleTask (s2 : RunnerState) (checkId targetRequestId : String)
    (res : TaskExecutionResult) : RunnerState :=
  let key := checkId ++ "-" ++ targetRequestId
  match res with
  | .doneResult fs output =>
    let newFindings := ((mapGet s2.findings checkId).getD []) ++ fs
    let s3a := { s2 with findings := mapSet s2.findings checkId newFindings }
    let s3b := { s3a with dependencies := mapSet s3a.dependencies checkId output }
    (match mapGet s3b.activeCheckRecords key with
     | none => s3b
     | some ar =>
       let record : CheckExecutionRecord :=
         { checkId := ar.checkId
           targetRequestId := ar.targetRequestId
           steps := ar.steps
           outcome := .completed output }
       { s3b with
         executionHistory := s3b.executionHistory ++ [record]
         activeCheckRecords := mapDelete s3b.activeCheckRecords key })
  | .failedResult fs code msg =>
    let newFindings := ((mapGet s2.findings checkId).getD []) ++ fs
    let s3a := { s2 with findings := mapSet s2.findings checkId newFindings }
    let s3b :=
      (match mapGet s3a.activeCheckRecords key with
       | none => s3a
       | some ar =>
         let record : CheckExecutionRecord :=
           { checkId := ar.checkId
             targetRequestId := ar.targetRequestId
             steps := ar.steps
             outcome := .failed code msg }
         { s3a with
           executionHistory := s3a.executionHistory ++ [record]
           activeCheckRecords := mapDelete s3a.activeCheckRecords key })
    emitEvent s3b (.checkFailed checkId targetRequestId code msg)

/-- The `process` body plus pool callbacks for the task list, run
sequentially in submission order. `onTaskStarted` installs the active record
and emits `scan:check-started`; the body short-circuits on `skipIfFoundBy`
(inspecting the findings under the task's own id), otherwise drives the task
and settles it (`settleTask`); `onTaskFinished` emits `scan:check-finished`. -/
def runTasks (config : ScanConfig) (fuel : Nat) :
    RunnerState → List CheckTask → BatchOutcome
  | s, [] => .batchDone s
  | s, task :: rest =>
    let targetRequestId := task.target.request.getId
    let key := task.metadata.id ++ "-" ++ targetRequestId
    let freshActive : ActiveRecord :=
      { checkId := task.metadata.id, targetRequestId := targetRequestId, steps := [] }
    let active0 := mapSet s.activeCheckRecords key freshActive
    let s0 := { s with activeCheckRecords := active0 }
    let s1 := emitEvent s0 (.checkStarted task.metadata.id targetRequestId)
    if truthyOptStr task.metadata.skipIfFoundBy ∧
        ((mapGet s1.findings task.metadata.id).getD []) ≠ [] then
      runTasks config fuel (emitEvent s1 (.checkFinished task.metadata.id targetRequestId)) rest
    else
      match tickUntilDone config fuel s1 task [] with
      | .diverge => .batchDiverge
      | .interruptedLoop s2 _ => .batchDone s2
      | .settled s2 res =>
        runTasks config fuel
          (emitEvent (settleTask s2 task.metadata.id targetRequestId res)
            (.checkFinished task.metadata.id targetRequestId)) rest

/-- `processBatch`: filter the batch (claiming dedupe keys), create the tasks,
and run them. -/
def processBatch (config : ScanConfig) (fuel : Nat) (s : RunnerState)
    (batch : List CheckDefinition) (target : ScanTarget) : BatchOutcome :=
  let (s1, applicable) := filterApplicable config target s batch
  let tasks := applicable.map (fun c => createTask c target)
  runTasks config fuel s1 tasks

/-! ## Scan runner (`run`, `estimate`) -/

/-- The host SDK's `requests.get`, as captured request/response data keyed by
request id. -/
abbrev HostRequests : Type := List (String × ScanTarget)

/-- The outcome of `processTarget` as seen by the target pool: normal
completion, a thrown `ScanRunnableInterruptedError`, a thrown plain error, or
divergence. -/
inductive TargetOutcome where
  | targetOk (s : RunnerState)
  | targetInterrupted (s : RunnerState) (r : InterruptReason)
  | targetThrew (s : RunnerState) (e : Thrown)
  | targetDiverge

/-- The per-target loop over the plan's batches: before each batch an
interrupt check (`throw` when pending), then `processBatch`. -/
def processBatchesLoop (config : ScanConfig) (fuel : Nat) :
    RunnerState → List (List CheckDefinition) → ScanTarget → TargetOutcome
  | s, [], _ => .targetOk s
  | s, batch :: rest, target =>
    match s.interruptReason with
    | some r => .targetInterrupted s r
    | none =>
      match processBatch config fuel s batch target with
      | .batchDiverge => .targetDiverge
      | .batchDone s' => processBatchesLoop config fuel s' rest target

/-- `processTarget`: resolve the target with the host SDK (`REQUEST_NOT_FOUND`
when absent), then run every batch of the plan. -/
def processTarget (host : HostRequests) (config : ScanConfig)
    (batches : List (List CheckDefinition)) (fuel : Nat)
    (s : RunnerState) (requestID : String) : TargetOutcome :=
  match mapGet host requestID with
  | none =>
    .targetThrew s (.runnable .requestNotFound ("Request " ++ requestID ++ " not found"))
  | some target => processBatchesLoop config fuel s batches target

/-- The target pool: `handleError` stops the pool on
`ScanRunnableInterruptedError` (swallowing it) and rethrows anything else,
which rejects the pool. -/
def targetsLoop (host : HostRequests) (config : ScanConfig)
    (batches : List (List CheckDefinition)) (fuel : Nat) :
    RunnerState → List String → TargetOutcome
  | s, [] => .targetOk s
  | s, requestID :: rest =>
    match processTarget host config batches fuel s requestID with
    | .targetOk s' => targetsLoop host config batches fuel s' rest
    | .targetInterrupted s' _ => .targetOk s'
    | .targetThrew s' e => .targetThrew s' e
    | .targetDiverge => .targetDiverge

/-- `ScanResult`. -/
inductive ScanResult where
  | finished (findings : List Finding)
  | interrupted (reason : InterruptReason) (findings : List Finding)
  | errorResult (error : String)

/-- `Array.from(findings.values()).flat()`. -/
def flattenFindings (findings : List (String × List Finding)) : List Finding :=
  (findings.map (fun e => e.2)).flatten

/-- `error instanceof Error ? error.message : "Unknown error"`. -/
def thrownMessage (e : Thrown) : String :=
  match e with
  | .runnable _ msg => msg
  | .jsError msg => msg
  | .nonError => "Unknown error"

/-- The outcome of `run`: a `ScanResult` with the final runner state, or
divergence. -/
inductive RunOutcome where
  | runOk (result : ScanResult) (s : RunnerState)
  | runDiverge

/-- `run(requestIDs)` on the `scanTimeout = 0` path (no wall clock in the
embedding): the single-shot guard, `scan:started`, the target pool, the
`catch` mapping a thrown error to an `Error` result, and the `finally`
emitting `scan:finished`. A pool stop after a swallowed interrupt falls
through to the `Finished` return. -/
def runScan (host : HostRequests) (config : ScanConfig)
    (batches : List (List CheckDefinition)) (fuel : Nat)
    (s : RunnerState) (requestIDs : List String) : RunOutcome :=
  if s.hasRun then .runOk (.errorResult "Scan is already running") s
  else
    let s0 := emitEvent { s with hasRun := true } .started
    match targetsLoop host config batches fuel s0 requestIDs with
    | .targetOk s' =>
      .runOk (.finished (flattenFindings s'.findings)) (emitEvent s' .finished)
    | .targetInterrupted s' r =>
      -- unreachable from `targetsLoop` (kept for the catch's shape):
      -- `scan:interrupted` then the `Interrupted` result.
      .runOk (.interrupted r (flattenFindings s'.findings))
        (emitEvent (emitEvent s' (.interruptedEvt r)) .finished)
    | .targetThrew s' e =>
      .runOk (.errorResult (thrownMessage e)) (emitEvent s' .finished)
    | .targetDiverge => .runDiverge

/-- `ScanEstimateResult`. -/
inductive ScanEstimateResult where
  | success (checksTotal : Nat)
  | estimateError (error : String)

/-- The inner counting pass of `estimate` for one target: filter every batch
against the snapshot, counting kept checks (`tasks.flat().length`). -/
def estimateTarget (config : ScanConfig) (target : ScanTarget) :
    List (List CheckDefinition) → List (String × List String) →
    Nat × List (String × List String)
  | [], snapshot => (0, snapshot)
  | batch :: rest, snapshot =>
    let (cnt, snapshot') := estimateBatch config target batch snapshot
    let (cntRest, snapshot'') := estimateTarget config target rest snapshot'
    (cnt + cntRest, snapshot'')
where
  /-- One batch's `filter` pass against the snapshot. -/
  estimateBatch (config : ScanConfig) (target : ScanTarget) :
      List CheckDefinition → List (String × List String) →
      Nat × List (String × List String)
    | [], snapshot => (0, snapshot)
    | check :: rest, snapshot =>
      let (ok, snapshot') := isCheckApplicable check target config snapshot
      let (cnt, snapshot'') := estimateBatch config target rest snapshot'
      (if ok then cnt + 1 else cnt, snapshot'')

/-- The loop of `estimate` over the request ids, threading the snapshot. -/
def estimateLoop (host : HostRequests) (config : ScanConfig)
    (batches : List (List CheckDefinition)) :
    List String → List (String × List String) → Nat → ScanEstimateResult
  | [], _, checksTotal => .success checksTotal
  | requestID :: rest, snapshot, checksTotal =>
    match mapGet host requestID with
    | none => .estimateError ("Request " ++ requestID ++ " not found")
    | some target =>
      let (cnt, snapshot') := estimateTarget config target batches snapshot
      estimateLoop host config batches rest snapshot' (checksTotal + cnt)

/-- `estimate(requestIDs)`: count applicable checks against a snapshot of the
dedupe index; the runner state is returned untouched. -/
def estimateScan (host : HostRequests) (config : ScanConfig)
    (batches : List (List CheckDefinition)) (s : RunnerState)
    (requestIDs : List String) : ScanEstimateResult × RunnerState :=
  let snapshot := createDedupeKeysSnapshot s.dedupeKeys
  (estimateLoop host config batches requestIDs snapshot 0, s)

/-! ## Derived quantities used by the theorems -/

/-- Total number of findings held in the findings map. -/
def totalFindingsCount (findings : List (String × List Finding)) : Nat :=
  (findings.map (fun e => e.2.length)).sum

/-- Number of findings recorded in one execution record's steps. -/
def recordFindingsCount (r : CheckExecutionRecord) : Nat :=
  (r.steps.map (fun st => st.findings.length)).sum

/-- Sum of step findings over all history records. -/
def historyFindingsCount (hist : List CheckExecutionRecord) : Nat :=
  (hist.map recordFindingsCount).sum

/-- Whether a record has status `completed`. -/
def CheckExecutionRecord.isCompleted (r : CheckExecutionRecord) : Bool :=
  match r.outcome with
  | .completed _ => true
  | .failed _ _ => false

/-- Sum of step findings over the `completed` records only. -/
def completedFindingsCount (hist : List CheckExecutionRecord) : Nat :=
  historyFindingsCount (hist.filter (fun r => r.isCompleted))

/-- The `finalOutput` of the last `completed` record for a check id. -/
def lastCompletedOutput (hist : List CheckExecutionRecord) (checkId : String) :
    Option (Option JsonValue) :=
  (hist.filter (fun r => r.checkId = checkId ∧ r.isCompleted)).getLast?.bind
    (fun r => match r.outcome with
      | .completed output => some output
      | .failed _ _ => none)

/-- Pointwise containment of dedupe maps: every claimed `(checkId, key)` pair
of the first is claimed in the second. -/
def dedupeLe (d1 d2 : List (String × List String)) : Prop :=
  ∀ checkId key, key ∈ (mapGet d1 checkId).getD [] → key ∈ (mapGet d2 checkId).getD []

/-! ## Concrete fixtures used by counterexamples and witnesses -/

/-- A high-severity finding fixture. -/
def fixtureFinding (nm : String) : Finding :=
  { name := nm
    description := "fixture finding"
    severity := .high
    correlation := { requestID := "1", locations := [] } }

/-- A response-less target fixture. -/
def fixtureTarget (rid : String) : ScanTarget :=
  { request := { id := rid, host := "example.com", port := 80, path := "/" }
    response := none }

/-- A permissive configuration fixture. -/
def fixtureConfig : ScanConfig :=
  { aggressivity := 2
    severities := [.info, .low, .medium, .high, .critical]
    inScopeOnly := false
    concurrentTargets := 1
    concurrentChecks := 1
    concurrentRequests := 1
    requestsDelayMs := 0
    scanTimeout := 0
    checkTimeout := 0 }

/-- Metadata fixture: one high-severity check. -/
def mkMeta (id : String) (deps : Option (List String)) (skip : Option String) :
    CheckMetadata :=
  { id := id
    name := id
    severities := [.high]
    minAggressivity := none
    dependsOn := deps
    skipIfFoundBy := skip }

/-- A single-step check that immediately finishes with the given findings and
output. -/
def mkSimpleCheck (id : String) (deps : Option (List String)) (skip : Option String)
    (fs : ScanTarget → List Finding) (out : ScanTarget → Option JsonValue) :
    CheckDefinition :=
  { metadata := mkMeta id deps skip
    initState := .obj []
    when := none
    dedupeKey := none
    steps := fun nm =>
      if nm = "main" then
        some (fun st ctx => .ok (.done st (fs ctx.target) (out ctx.target)))
      else none
    initialStep := "main" }

/-- A two-step check: step one continues and emits a finding, step two throws
a plain `Error`. -/
def partialFailCheck : CheckDefinition :=
  { metadata := mkMeta "partial-fail" none none
    initState := .obj []
    when := none
    dedupeKey := none
    steps := fun nm =>
      if nm = "s1" then
        some (fun st _ => .ok (.continueWith "s2" st [fixtureFinding "partial"]))
      else if nm = "s2" then
        some (fun _ _ => .error (.jsError "boom"))
      else none
    initialStep := "s1" }

/-- A check that completes with its target's request id as output. -/
def outputIdCheck : CheckDefinition :=
  mkSimpleCheck "output-id" none none (fun _ => [])
    (fun t => some (.str t.request.id))

/-- A check whose single step throws a `ScanRunnableError`. -/
def runnableThrowCheck : CheckDefinition :=
  { metadata := mkMeta "runnable-throw" none none
    initState := .obj []
    when := none
    dedupeKey := none
    steps := fun nm =>
      if nm = "main" then
        some (fun _ _ => .error (.runnable .requestNotFound "fixture runnable error"))
      else none
    initialStep := "main" }

/-- A check with a host-based dedupe key. -/
def dedupeHostCheck : CheckDefinition :=
  { mkSimpleCheck "dedupe-host" none none (fun _ => []) (fun _ => none) with
    dedupeKey := some (fun t => t.request.host) }

/-- A check flagged `skipIfFoundBy` another check's id, with a dedupe key. -/
def skipConfiguredCheck : CheckDefinition :=
  { mkSimpleCheck "skip-configured" none (some "dep-check")
      (fun _ => [fixtureFinding "should-not-exist"]) (fun _ => none) with
    dedupeKey := some (fun t => t.request.host) }

/-- Planner fixture: a check with no dependencies. -/
def planCheckA : CheckDefinition :=
  mkSimpleCheck "plan-a" none none (fun _ => []) (fun _ => none)

/-- Planner fixture: a check depending on `plan-a`. -/
def planCheckB : CheckDefinition :=
  mkSimpleCheck "plan-b" (some ["plan-a"]) none (fun _ => []) (fun _ => none)

/-- Planner fixture: a check whose dependency is not registered. -/
def planCheckBad : CheckDefinition :=
  mkSimpleCheck "plan-bad" (some ["missing-dep"]) none (fun _ => []) (fun _ => none)

/-- Host fixture with one target. -/
def fixtureHost1 : HostRequests := [("1", fixtureTarget "1")]

/-- A second target on a different host. -/
def fixtureTarget2 : ScanTarget :=
  { request := { id := "2", host := "other.com", port := 80, path := "/x" }
    response := none }

/-- Host fixture with two targets. -/
def fixtureHost2 : HostRequests := [("1", fixtureTarget "1"), ("2", fixtureTarget2)]

/-- A runner state in which findings already exist under `dep-check` (the id
referenced by `skipConfiguredCheck.metadata.skipIfFoundBy`) and none under
`skip-configured` itself. -/
def stateWithDepFindings : RunnerState :=
  { initialRunnerState with findings := [("dep-check", [fixtureFinding "dep-finding"])] }

/-- A runner state in which findings already exist under `skip-configured`
itself (the id the source code actually inspects). -/
def stateWithOwnFindings : RunnerState :=
  { initialRunnerState with findings := [("skip-configured", [fixtureFinding "own-finding"])] }

/-- A target whose response is HTML and carries the given single
`content-security-policy` header value. -/
def htmlCspTarget (csp : String) : ScanTarget :=
  { request := { id := "1", host := "example.com", port := 80, path := "/" }
    response := some
      { code := 200
        headers := [("content-type", ["text/html"]), ("content-security-policy", [csp])]
        body := some "<html></html>" } }

/-- The `activeCheckRecords` key of a task (`checkId + "-" + targetRequestId`). -/
def taskKey (task : CheckTask) : String :=
  task.metadata.id ++ "-" ++ task.target.request.getId

/-- Sum of the per-step finding counts of a step-record list. -/
def stepsFindingsSum (steps : List StepExecutionRecord) : Nat :=
  (steps.map (fun st => st.findings.length)).sum

/-- The findings carried by a settled task result. -/
def resultFindings (res : TaskExecutionResult) : List Finding :=
  match res with
  | .doneResult fs _ => fs
  | .failedResult fs _ _ => fs

/-- Bookkeeping invariant: the findings map holds exactly as many findings as
the step records of the execution history. -/
def invFindingsHistory (s : RunnerState) : Prop :=
  totalFindingsCount s.findings = historyFindingsCount s.executionHistory

/-- Bookkeeping invariant: each dependency entry is the `finalOutput` of the
last completed history record of that check id. -/
def invDepsHistory (s : RunnerState) : Prop :=
  ∀ checkId, mapGet s.dependencies checkId = lastCompletedOutput s.executionHistory checkId

/-! # Helper lemmas -/

theorem mapGet_mapSet {α : Type} (m : List (String × α)) (k k' : String) (v : α) :
    mapGet (mapSet m k v) k' = if k' = k then some v else mapGet m k' := by
  induction m with
  | nil =>
    simp only [mapSet, mapGet]
    by_cases h : k' = k
    · subst h; simp
    · rw [if_neg (fun hh => h hh.symm), if_neg h]
  | cons e rest ih =>
    simp only [mapSet]
    by_cases he : e.1 = k
    · rw [if_pos he]
      by_cases h : k' = k
      · subst h
        simp [mapGet]
      · simp only [mapGet]
        rw [if_neg (fun hh => h hh.symm), if_neg h,
          if_neg (fun hh => h ((he.symm.trans hh).symm))]
    · rw [if_neg he]
      simp only [mapGet]
      by_cases h2 : e.1 = k'
      · rw [if_pos h2, if_pos h2, if_neg (fun hh => he (h2.trans hh))]
      · rw [if_neg h2, if_neg h2, ih]

theorem createDedupeKeysSnapshot_eq (d : List (String × List String)) :
    createDedupeKeysSnapshot d = d := by
  simp [createDedupeKeysSnapshot]

/-! # Claim C5 — `estimate` does not disturb dedupe state -/

/-- **C5.** For every list of request ids, `estimate` leaves the runner's
dedupe-key state (indeed the whole runner state) unchanged: it counts
applicability against a snapshot that copies every per-check key set, so a
run performed after the estimate is the very same run as one performed
without it. -/
theorem estimate_preserves_dedupe_state (host : HostRequests) (config : ScanConfig)
    (batches : List (List CheckDefinition)) (s : RunnerState) (requestIDs : List String) :
    createDedupeKeysSnapshot s.dedupeKeys = s.dedupeKeys ∧
    (estimateScan host config batches s requestIDs).2 = s ∧
    ∀ (fuel : Nat) (requestIDs2 : List String),
      runScan host config batches fuel (estimateScan host config batches s requestIDs).2 requestIDs2 =
        runScan host config batches fuel s requestIDs2 :=
  ⟨createDedupeKeysSnapshot_eq s.dedupeKeys, rfl, fun _ _ => rfl⟩

/-! # Claim C8 — `csp-untrusted-script` on `script-src *` -/

/-- **C8.** For every target whose response is HTML (content-type containing
`text/html`) with the single CSP header value `script-src *`, the
`csp-untrusted-script` step completes (`done`) with exactly one finding, and
that finding is `critical`. -/
theorem cspUntrustedScript_wildcard_critical (t : ScanTarget) (r : Response)
    (cts : List String) (st : JsonValue) (deps : List (String × Option JsonValue))
    (config : ScanConfig)
    (hresp : t.response = some r)
    (hct : r.getHeader "content-type" = some cts)
    (hhtml : jsIncludes ((cts.head?).getD "") "text/html" = true)
    (hcsp : r.getHeader "content-security-policy" = some ["script-src *"]) :
    ∃ f : Finding,
      checkCspUntrustedScriptStep st { target := t, dependencies := deps, config := config } =
        .ok (.done st [f] none) ∧
      f.severity = .critical := by
  refine ⟨cspWildcardFinding t, ?_, rfl⟩
  simp only [checkCspUntrustedScriptStep, hresp, hct, hcsp]
  norm_num
  rw [hhtml]
  norm_num
  rfl


/-- Witness for C8 at a concrete HTML target carrying `script-src *`. -/
theorem cspUntrustedScript_wildcard_critical_witness :
    jsIncludes ((["text/html"].head?).getD "") "text/html" = true ∧
    ∃ f : Finding,
      checkCspUntrustedScriptStep (.obj [])
          { target := htmlCspTarget "script-src *", dependencies := [], config := fixtureConfig } =
        .ok (.done (.obj []) [f] none) ∧
      f.severity = .critical :=
  ⟨rfl,
    cspUntrustedScript_wildcard_critical (htmlCspTarget "script-src *") _ ["text/html"]
      (.obj []) [] fixtureConfig rfl rfl rfl rfl⟩

/-! # Claim C7 — unknown dependency at plan time -/

theorem addEdgesForCheck_ok_deps_registered (ids : List String) (cid : String)
    (dag dag' : Dag) (deps : List String)
    (h : addEdgesForCheck ids cid dag deps = .ok dag') :
    ∀ d ∈ deps, ids.contains d = true := by
  induction deps generalizing dag with
  | nil => intro d hd; cases hd
  | cons d0 rest ih =>
    intro d hd
    simp only [addEdgesForCheck] at h
    by_cases hc : ids.contains d0
    · rw [if_pos hc] at h
      cases hd with
      | head => exact hc
      | tail _ hmem => exact ih _ h d hmem
    · rw [if_neg hc] at h
      cases h

theorem addAllEdges_ok_deps_registered (ids : List String)
    (dag dag' : Dag) (checks : List CheckDefinition)
    (h : addAllEdges ids dag checks = .ok dag') :
    ∀ c ∈ checks, ∀ d ∈ depsOf c, ids.contains d = true := by
  induction checks generalizing dag with
  | nil => intro c hc; cases hc
  | cons c0 rest ih =>
    intro c hc d hd
    simp only [addAllEdges] at h
    cases heq : addEdgesForCheck ids c0.metadata.id dag (depsOf c0) with
    | error e => rw [heq] at h; cases h
    | ok dagMid =>
      rw [heq] at h
      cases hc with
      | head => exact addEdgesForCheck_ok_deps_registered _ _ _ _ _ heq d hd
      | tail _ hmem => exact ih _ h c hmem d hd

theorem addEdgesForCheck_error_is_jsError (ids : List String) (cid : String)
    (dag : Dag) (deps : List String) (e : Thrown)
    (h : addEdgesForCheck ids cid dag deps = .error e) :
    ∃ msg, e = .jsError msg := by
  induction deps generalizing dag with
  | nil => cases h
  | cons d0 rest ih =>
    simp only [addEdgesForCheck] at h
    by_cases hc : ids.contains d0
    · rw [if_pos hc] at h
      exact ih _ h
    · rw [if_neg hc] at h
      cases h
      exact ⟨_, rfl⟩

theorem addAllEdges_error_is_jsError (ids : List String)
    (dag : Dag) (checks : List CheckDefinition) (e : Thrown)
    (h : addAllEdges ids dag checks = .error e) :
    ∃ msg, e = .jsError msg := by
  induction checks generalizing dag with
  | nil => cases h
  | cons c0 rest ih =>
    simp only [addAllEdges] at h
    cases heq : addEdgesForCheck ids c0.metadata.id dag (depsOf c0) with
    | error e' =>
      rw [heq] at h
      cases h
      exact addEdgesForCheck_error_is_jsError _ _ _ _ _ heq
    | ok dagMid =>
      rw [heq] at h
      exact ih _ h

theorem resolveBatch_error_is_jsError (cm : List (String × CheckDefinition))
    (batch : List String) (e : Thrown)
    (h : resolveBatch cm batch = .error e) :
    ∃ msg, e = .jsError msg := by
  induction batch with
  | nil => cases h
  | cons x rest ih =>
    simp only [resolveBatch] at h
    cases hx : mapGet cm x with
    | none => rw [hx] at h; cases h; exact ⟨_, rfl⟩
    | some c =>
      rw [hx] at h
      cases hr : resolveBatch cm rest with
      | error e' => rw [hr] at h; cases h; exact ih hr
      | ok cs => rw [hr] at h; cases h

theorem resolveBatches_error_is_jsError (cm : List (String × CheckDefinition))
    (batches : List (List String)) (e : Thrown)
    (h : resolveBatches cm batches = .error e) :
    ∃ msg, e = .jsError msg := by
  induction batches with
  | nil => cases h
  | cons b rest ih =>
    simp only [resolveBatches] at h
    cases hb : resolveBatch cm b with
    | error e' => rw [hb] at h; cases h; exact resolveBatch_error_is_jsError _ _ _ hb
    | ok cs =>
      rw [hb] at h
      cases hr : resolveBatches cm rest with
      | error e' => rw [hr] at h; cases h; exact ih hr
      | ok bs => rw [hr] at h; cases h

theorem getCheckBatches_error_is_jsError (checks : List CheckDefinition) (e : Thrown)
    (h : getCheckBatches checks = .error e) :
    ∃ msg, e = .jsError msg := by
  simp only [getCheckBatches] at h
  cases hb : buildDag checks with
  | error e' =>
    rw [hb] at h
    cases h
    exact addAllEdges_error_is_jsError _ _ _ _ hb
  | ok dag =>
    simp only [hb] at h
    cases ht : batchingToposort dag with
    | error e' =>
      simp only [ht] at h
      cases h
      simp only [batchingToposort] at ht
      cases hk : kahnAux dag (dag.map (fun e => e.1)).length (dag.map (fun e => e.1)) with
      | some batches => rw [hk] at ht; cases ht
      | none => rw [hk] at ht; cases ht; exact ⟨_, rfl⟩
    | ok batches =>
      simp only [ht] at h
      exact resolveBatches_error_is_jsError _ _ _ h

theorem getCheckBatches_ok_deps_registered (checks : List CheckDefinition)
    (batches : List (List CheckDefinition))
    (h : getCheckBatches checks = .ok batches) :
    ∀ c ∈ checks, ∀ d ∈ depsOf c, (checks.map (fun c' => c'.metadata.id)).contains d = true := by
  simp only [getCheckBatches] at h
  cases hb : buildDag checks with
  | error e' => rw [hb] at h; cases h
  | ok dag =>
    simp only [buildDag] at hb
    exact addAllEdges_ok_deps_registered _ _ _ _ hb

/-- **C7 (counterexample).** On a concrete check list whose single check
declares the unregistered dependency `missing-dep`, plan construction fails
with a plain `Error` (message only) and not with a `ScanRunnableError`
carrying the code `UNKNOWN_DEPENDENCY` — the claim's "fails with error code
UNKNOWN_DEPENDENCY" does not hold of the thrown value. -/
theorem planner_unknown_dependency_counterexample :
    getCheckBatches [planCheckBad] = .error (.jsError (unknownDepMsg "plan-bad" "missing-dep")) ∧
    ∀ msg, getCheckBatches [planCheckBad] ≠
      .error (.runnable .unknownDependency msg) := by
  constructor
  · rfl
  · intro msg h
    have h1 : getCheckBatches [planCheckBad] =
        .error (.jsError (unknownDepMsg "plan-bad" "missing-dep")) := rfl
    rw [h1] at h
    exact Thrown.noConfusion (Except.error.inj h)

/-- **C7 (amended).** If some check declares a dependency id that is not the
id of any registered check, plan construction fails — but by throwing a
plain `Error` (it carries no error code, in particular not
`UNKNOWN_DEPENDENCY`); it also fails before any stub node could be used, so
no plan is produced. -/
theorem planner_unknown_dependency_fails_uncoded (checks : List CheckDefinition)
    (hbad : ∃ c ∈ checks, ∃ d ∈ depsOf c,
      (checks.map (fun c' => c'.metadata.id)).contains d = false) :
    ∃ msg, getCheckBatches checks = .error (.jsError msg) := by
  obtain ⟨c, hc, d, hd, hnc⟩ := hbad
  cases h : getCheckBatches checks with
  | ok batches =>
    have := getCheckBatches_ok_deps_registered checks batches h c hc d hd
    rw [hnc] at this
    cases this
  | error e =>
    obtain ⟨msg, rfl⟩ := getCheckBatches_error_is_jsError checks e h
    exact ⟨msg, rfl⟩

/-- Witness for the amended C7 at the concrete one-check list. -/
theorem planner_unknown_dependency_fails_uncoded_witness :
    (∃ c ∈ [planCheckBad], ∃ d ∈ depsOf c,
      ([planCheckBad].map (fun c' => c'.metadata.id)).contains d = false) ∧
    ∃ msg, getCheckBatches [planCheckBad] = .error (.jsError msg) :=
  ⟨⟨planCheckBad, List.Mem.head _, "missing-dep", by decide, by decide⟩,
    planner_unknown_dependency_fails_uncoded [planCheckBad]
      ⟨planCheckBad, List.Mem.head _, "missing-dep", by decide, by decide⟩⟩

/-! # Claim C1 — findings total versus execution history -/

/-- **C1 (counterexample).** A two-step check emits a finding in step one and
throws in step two. The run returns `Finished` with that one finding, but the
check's only history record has status `failed`: the sum over `completed`
records is `0 ≠ 1`, and the failed record's findings do contribute to the
returned total. -/
theorem findings_total_completed_counterexample :
    match runScan fixtureHost1 fixtureConfig [[partialFailCheck]] 10 initialRunnerState ["1"] with
    | .runOk (.finished fs) s' =>
      fs.length = 1 ∧
      completedFindingsCount s'.executionHistory = 0 ∧
      historyFindingsCount s'.executionHistory = 1 ∧
      s'.executionHistory.length = 1
    | _ => False := by
  exact ⟨rfl, rfl, rfl, rfl⟩

/-! # Claim C2 — `skipIfFoundBy` inspects the wrong findings list -/

/-- **C2 (code misbehaviour at a concrete input).** `skipConfiguredCheck`
declares `skipIfFoundBy: "dep-check"`, and the findings list stored under
`dep-check` is non-empty when the check is dispatched — the claim (and the
spec) demand the check be skipped. The source instead inspects the findings
under the check's *own* id, finds none, and runs the check: the batch ends
with a new history record for `skip-configured` and a finding emitted by it. -/
theorem skipIfFoundBy_checks_own_id_bug :
    ((mapGet stateWithDepFindings.findings "dep-check").getD []).length = 1 ∧
    ((mapGet stateWithDepFindings.findings "skip-configured").getD []).length = 0 ∧
    truthyOptStr skipConfiguredCheck.metadata.skipIfFoundBy = true ∧
    match processBatch fixtureConfig 10 stateWithDepFindings [skipConfiguredCheck]
        (fixtureTarget "1") with
    | .batchDone s' =>
      s'.executionHistory.length = 1 ∧
      ((mapGet s'.findings "skip-configured").getD []).length = 1
    | .batchDiverge => False := by
  exact ⟨rfl, rfl, rfl, rfl, rfl⟩

/-! # Claim C4 — dedupe keys claim each `(checkId, key)` pair once -/

theorem mem_setAdd_self (s : List String) (k : String) : k ∈ setAdd s k := by
  unfold setAdd
  by_cases h : k ∈ s
  · rw [if_pos h]; exact h
  · rw [if_neg h]; exact List.mem_append_right _ (List.mem_singleton.mpr rfl)

theorem mem_setAdd_of_mem (s : List String) (k x : String) (h : x ∈ s) :
    x ∈ setAdd s k := by
  unfold setAdd
  by_cases hk : k ∈ s
  · rw [if_pos hk]; exact h
  · rw [if_neg hk]; exact List.mem_append_left _ h

theorem dedupeLe_refl (d : List (String × List String)) : dedupeLe d d :=
  fun _ _ h => h

theorem dedupeLe_trans {d1 d2 d3 : List (String × List String)}
    (h12 : dedupeLe d1 d2) (h23 : dedupeLe d2 d3) : dedupeLe d1 d3 :=
  fun checkId key h => h23 checkId key (h12 checkId key h)

theorem isCheckApplicableDedupe_mono (check : CheckDefinition) (t : ScanTarget)
    (dk : List (String × List String)) :
    dedupeLe dk (isCheckApplicable.isCheckApplicableDedupe check t dk).2 := by
  unfold isCheckApplicable.isCheckApplicableDedupe
  cases hkey : check.dedupeKey with
  | none => exact dedupeLe_refl dk
  | some keyFn =>
    simp only
    by_cases hc : ((mapGet dk check.metadata.id).getD []).contains (keyFn t)
    · rw [if_pos hc]; exact dedupeLe_refl dk
    · rw [if_neg hc]
      intro checkId key hmem
      rw [mapGet_mapSet]
      by_cases hid : checkId = check.metadata.id
      · subst hid
        rw [if_pos rfl]
        exact mem_setAdd_of_mem _ _ _ hmem
      · rw [if_neg hid]
        exact hmem

theorem isCheckApplicable_mono (check : CheckDefinition) (t : ScanTarget)
    (config : ScanConfig) (dk : List (String × List String)) :
    dedupeLe dk (isCheckApplicable check t config dk).2 := by
  unfold isCheckApplicable
  by_cases h1 : check.metadata.severities.any (fun sv => config.severities.contains sv) = true
  · rw [if_neg (not_not_intro h1)]
    by_cases h2 : (match check.metadata.minAggressivity with
                   | some m => decide (m > config.aggressivity)
                   | none => false) = true
    · rw [if_pos h2]; exact dedupeLe_refl dk
    · rw [if_neg h2]
      cases hw : check.when with
      | none => exact isCheckApplicableDedupe_mono check t dk
      | some w =>
        dsimp only
        by_cases hwt : w t = true
        · rw [if_neg (not_not_intro hwt)]
          exact isCheckApplicableDedupe_mono check t dk
        · rw [if_pos hwt]
          exact dedupeLe_refl dk
  · rw [if_pos h1]
    exact dedupeLe_refl dk

theorem isCheckApplicable_eq_dedupe (check : CheckDefinition) (t : ScanTarget)
    (config : ScanConfig) (dk : List (String × List String))
    (hsev : check.metadata.severities.any (fun sv => config.severities.contains sv) = true)
    (hagg : (match check.metadata.minAggressivity with
             | some m => decide (m > config.aggressivity)
             | none => false) = false)
    (hwhen : ∀ w, check.when = some w → w t = true) :
    isCheckApplicable check t config dk =
      isCheckApplicable.isCheckApplicableDedupe check t dk := by
  unfold isCheckApplicable
  rw [if_neg (not_not_intro hsev), if_neg (by rw [hagg]; exact Bool.false_ne_true)]
  cases hw : check.when with
  | none => rfl
  | some w =>
    dsimp only
    rw [if_neg (not_not_intro (hwhen w hw))]

theorem isCheckApplicableDedupe_claims (check : CheckDefinition) (t : ScanTarget)
    (dk : List (String × List String)) (keyFn : ScanTarget → String)
    (hkey : check.dedupeKey = some keyFn)
    (hfresh : keyFn t ∉ (mapGet dk check.metadata.id).getD []) :
    (isCheckApplicable.isCheckApplicableDedupe check t dk).1 = true ∧
    keyFn t ∈ (mapGet (isCheckApplicable.isCheckApplicableDedupe check t dk).2
      check.metadata.id).getD [] := by
  unfold isCheckApplicable.isCheckApplicableDedupe
  rw [hkey]
  dsimp only
  rw [if_neg (fun hc => hfresh (List.elem_iff.mp hc))]
  refine ⟨rfl, ?_⟩
  rw [mapGet_mapSet, if_pos rfl]
  exact mem_setAdd_self _ _

theorem isCheckApplicable_false_of_mem (check : CheckDefinition) (t2 : ScanTarget)
    (config : ScanConfig) (dk2 : List (String × List String))
    (keyFn : ScanTarget → String)
    (hkey : check.dedupeKey = some keyFn)
    (hmem : keyFn t2 ∈ (mapGet dk2 check.metadata.id).getD []) :
    (isCheckApplicable check t2 config dk2).1 = false := by
  have hded : (isCheckApplicable.isCheckApplicableDedupe check t2 dk2).1 = false := by
    unfold isCheckApplicable.isCheckApplicableDedupe
    rw [hkey]
    dsimp only
    rw [if_pos (List.elem_iff.mpr hmem)]
  unfold isCheckApplicable
  by_cases h1 : check.metadata.severities.any (fun sv => config.severities.contains sv) = true
  · rw [if_neg (not_not_intro h1)]
    by_cases h2 : (match check.metadata.minAggressivity with
                   | some m => decide (m > config.aggressivity)
                   | none => false) = true
    · rw [if_pos h2]
    · rw [if_neg h2]
      cases hw : check.when with
      | none => exact hded
      | some w =>
        dsimp only
        by_cases hwt : w t2 = true
        · rw [if_neg (not_not_intro hwt)]
          exact hded
        · rw [if_pos hwt]
  · rw [if_pos h1]

/-! # Task interpreter bookkeeping lemmas -/

theorem stepsFindingsSum_append (l : List StepExecutionRecord) (r : StepExecutionRecord) :
    stepsFindingsSum (l ++ [r]) = stepsFindingsSum l + r.findings.length := by
  simp [stepsFindingsSum]

theorem CheckTask.tick_preserves (task : CheckTask) (ctx : StepContext)
    (sr : TaskStepResult) (task' : CheckTask)
    (h : task.tick ctx = .ok (sr, task')) :
    task'.metadata = task.metadata ∧ task'.target = task.target ∧
    task'.steps = task.steps := by
  unfold CheckTask.tick at h
  cases hc : task.currentStep with
  | none => simp [hc] at h
  | some stepName =>
    simp only [hc] at h
    cases hs : task.steps stepName with
    | none => simp [hs] at h
    | some f =>
      simp only [hs] at h
      cases hf : f task.state ctx with
      | error e => simp [hf] at h
      | ok act =>
        simp only [hf] at h
        cases act with
        | done st fs out => cases h; exact ⟨rfl, rfl, rfl⟩
        | continueWith nextStep st fs => cases h; exact ⟨rfl, rfl, rfl⟩

theorem foldl_emit_core (l : List Finding) (tid cid : String) (s : RunnerState) :
    (l.foldl (fun acc f => emitEvent acc (.findingEvt tid cid f)) s).findings = s.findings ∧
    (l.foldl (fun acc f => emitEvent acc (.findingEvt tid cid f)) s).dependencies = s.dependencies ∧
    (l.foldl (fun acc f => emitEvent acc (.findingEvt tid cid f)) s).dedupeKeys = s.dedupeKeys ∧
    (l.foldl (fun acc f => emitEvent acc (.findingEvt tid cid f)) s).executionHistory = s.executionHistory ∧
    (l.foldl (fun acc f => emitEvent acc (.findingEvt tid cid f)) s).interruptReason = s.interruptReason ∧
    (l.foldl (fun acc f => emitEvent acc (.findingEvt tid cid f)) s).hasRun = s.hasRun ∧
    (l.foldl (fun acc f => emitEvent acc (.findingEvt tid cid f)) s).activeCheckRecords = s.activeCheckRecords := by
  induction l generalizing s with
  | nil => exact ⟨rfl, rfl, rfl, rfl, rfl, rfl, rfl⟩
  | cons x xs ih => exact ih (emitEvent s (.findingEvt tid cid x))

theorem recordStepExecution_core (s : RunnerState) (cid tid : String)
    (rec : StepExecutionRecord) :
    (recordStepExecution s cid tid rec).findings = s.findings ∧
    (recordStepExecution s cid tid rec).dependencies = s.dependencies ∧
    (recordStepExecution s cid tid rec).dedupeKeys = s.dedupeKeys ∧
    (recordStepExecution s cid tid rec).executionHistory = s.executionHistory ∧
    (recordStepExecution s cid tid rec).interruptReason = s.interruptReason ∧
    (recordStepExecution s cid tid rec).hasRun = s.hasRun ∧
    (recordStepExecution s cid tid rec).events = s.events := by
  simp only [recordStepExecution]
  cases hm : mapGet s.activeCheckRecords (cid ++ "-" ++ tid) with
  | none => exact ⟨rfl, rfl, rfl, rfl, rfl, rfl, rfl⟩
  | some ar0 => exact ⟨rfl, rfl, rfl, rfl, rfl, rfl, rfl⟩

theorem recordStepExecution_active (s : RunnerState) (cid tid : String)
    (rec : StepExecutionRecord) :
    (∀ k, k ≠ cid ++ "-" ++ tid →
      mapGet (recordStepExecution s cid tid rec).activeCheckRecords k =
        mapGet s.activeCheckRecords k) ∧
    (∀ ar, mapGet s.activeCheckRecords (cid ++ "-" ++ tid) = some ar →
      mapGet (recordStepExecution s cid tid rec).activeCheckRecords (cid ++ "-" ++ tid) =
        some { ar with steps := ar.steps ++ [rec] }) ∧
    (mapGet s.activeCheckRecords (cid ++ "-" ++ tid) = none →
      mapGet (recordStepExecution s cid tid rec).activeCheckRecords (cid ++ "-" ++ tid) = none) := by
  simp only [recordStepExecution]
  cases hm : mapGet s.activeCheckRecords (cid ++ "-" ++ tid) with
  | none =>
    refine ⟨fun k hk => rfl, fun ar har => ?_, fun _ => hm⟩
    cases har
  | some ar0 =>
    refine ⟨fun k hk => ?_, fun ar har => ?_, fun hnone => ?_⟩
    · simp only
      rw [mapGet_mapSet, if_neg hk]
    · cases har
      simp only
      rw [mapGet_mapSet, if_pos rfl]
    · cases hnone

theorem execTick_error_iff (config : ScanConfig) (s : RunnerState) (task : CheckTask)
    (r : InterruptReason) :
    execTick config s task = .error r ↔ s.interruptReason = some r := by
  unfold execTick
  cases hi : s.interruptReason with
  | some r' =>
    constructor
    · intro h; cases h; rfl
    · intro h; cases h; rfl
  | none =>
    cases ht : task.tick { target := task.target, dependencies := s.dependencies, config := config } with
    | error e => simp [ht]
    | ok pr => simp [ht]

theorem execTick_ok_spec (config : ScanConfig) (s : RunnerState) (task : CheckTask)
    (s' : RunnerState) (res : SingleTickResult) (task' : CheckTask)
    (h : execTick config s task = .ok (s', res, task')) :
    s'.findings = s.findings ∧ s'.dependencies = s.dependencies ∧
    s'.dedupeKeys = s.dedupeKeys ∧ s'.executionHistory = s.executionHistory ∧
    s'.interruptReason = s.interruptReason ∧ s'.hasRun = s.hasRun ∧
    (∀ k, k ≠ taskKey task →
      mapGet s'.activeCheckRecords k = mapGet s.activeCheckRecords k) ∧
    (∀ ar, mapGet s.activeCheckRecords (taskKey task) = some ar →
      ∃ ar', mapGet s'.activeCheckRecords (taskKey task) = some ar' ∧
        ar'.checkId = ar.checkId ∧ ar'.targetRequestId = ar.targetRequestId ∧
        stepsFindingsSum ar'.steps = stepsFindingsSum ar.steps + res.findings.length) ∧
    (mapGet s.activeCheckRecords (taskKey task) = none →
      mapGet s'.activeCheckRecords (taskKey task) = none) ∧
    task'.metadata = task.metadata ∧ task'.target = task.target := by
  unfold execTick at h
  cases hi : s.interruptReason with
  | some r => simp [hi] at h
  | none =>
    simp only [hi] at h
    cases ht : task.tick { target := task.target, dependencies := s.dependencies, config := config } with
    | error e =>
      simp only [ht] at h
      cases h
      refine ⟨rfl, rfl, rfl, rfl, hi, rfl, fun k _ => rfl, fun ar har => ?_, fun h0 => h0, rfl, rfl⟩
      exact ⟨ar, har, rfl, rfl, (Nat.add_zero _).symm⟩
    | ok pr =>
      obtain ⟨stepRes, task2⟩ := pr
      simp only [ht] at h
      cases h
      have hpres := CheckTask.tick_preserves task _ stepRes _ ht
      have hfold := foldl_emit_core stepRes.findings task.target.request.getId task.metadata.id
        s
      set s1 := stepRes.findings.foldl
        (fun acc f => emitEvent acc (.findingEvt task.target.request.getId task.metadata.id f)) s with hs1
      have hrec := fun rec =>
        recordStepExecution_core s1 task.metadata.id task.target.request.getId rec
      have hract := fun rec =>
        recordStepExecution_active s1 task.metadata.id task.target.request.getId rec
      refine ⟨?_, ?_, ?_, ?_, ?_, ?_, ?_, ?_, ?_, hpres.1, hpres.2.1⟩
      · exact ((hrec _).1).trans hfold.1
      · exact ((hrec _).2.1).trans hfold.2.1
      · exact ((hrec _).2.2.1).trans hfold.2.2.1
      · exact ((hrec _).2.2.2.1).trans hfold.2.2.2.1
      · exact (((hrec _).2.2.2.2.1).trans hfold.2.2.2.2.1).trans hi
      · exact ((hrec _).2.2.2.2.2.1).trans hfold.2.2.2.2.2.1
      · intro k hk
        rw [(hract _).1 k hk, hfold.2.2.2.2.2.2]
      · intro ar har
        have harS1 : mapGet s1.activeCheckRecords (taskKey task) = some ar := by
          rw [hfold.2.2.2.2.2.2]; exact har
        refine ⟨{ ar with steps := ar.steps ++ [_] }, (hract _).2.1 ar harS1, rfl, rfl, ?_⟩
        rw [stepsFindingsSum_append]
      · intro hnone
        have hnoneS1 : mapGet s1.activeCheckRecords (taskKey task) = none := by
          rw [hfold.2.2.2.2.2.2]; exact hnone
        exact (hract _).2.2 hnoneS1

theorem tickUntilDone_spec (config : ScanConfig) :
    ∀ (fuel : Nat) (s : RunnerState) (task : CheckTask) (acc : List Finding)
      (s' : RunnerState) (res : TaskExecutionResult),
    tickUntilDone config fuel s task acc = .settled s' res →
    s'.findings = s.findings ∧ s'.dependencies = s.dependencies ∧
    s'.dedupeKeys = s.dedupeKeys ∧ s'.executionHistory = s.executionHistory ∧
    s'.interruptReason = s.interruptReason ∧ s'.hasRun = s.hasRun ∧
    (∀ k, k ≠ taskKey task →
      mapGet s'.activeCheckRecords k = mapGet s.activeCheckRecords k) ∧
    (∀ ar, mapGet s.activeCheckRecords (taskKey task) = some ar →
      ∃ ar', mapGet s'.activeCheckRecords (taskKey task) = some ar' ∧
        ar'.checkId = ar.checkId ∧ ar'.targetRequestId = ar.targetRequestId ∧
        stepsFindingsSum ar'.steps + acc.length =
          stepsFindingsSum ar.steps + (resultFindings res).length) := by
  intro fuel
  induction fuel with
  | zero => intro s task acc s' res h; cases h
  | succ fuel ih =>
    intro s task acc s' res h
    unfold tickUntilDone at h
    cases he : execTick config s task with
    | error r => rw [he] at h; cases h
    | ok trip =>
      obtain ⟨s1, tickRes, task1⟩ := trip
      simp only [he] at h
      have hspec := execTick_ok_spec config s task s1 tickRes task1 he
      have hkeyEq : taskKey task1 = taskKey task := by
        unfold taskKey
        rw [hspec.2.2.2.2.2.2.2.2.2.1, hspec.2.2.2.2.2.2.2.2.2.2]
      cases hst : tickRes.status with
      | continueTick =>
        simp only [hst] at h
        have hrec := ih s1 task1 (acc ++ tickRes.findings) s' res h
        refine ⟨hrec.1.trans hspec.1, hrec.2.1.trans hspec.2.1,
          hrec.2.2.1.trans hspec.2.2.1, hrec.2.2.2.1.trans hspec.2.2.2.1,
          hrec.2.2.2.2.1.trans hspec.2.2.2.2.1, hrec.2.2.2.2.2.1.trans hspec.2.2.2.2.2.1,
          ?_, ?_⟩
        · intro k hk
          rw [hkeyEq] at hrec
          exact (hrec.2.2.2.2.2.2.1 k hk).trans (hspec.2.2.2.2.2.2.1 k hk)
        · intro ar har
          obtain ⟨ar1, har1, hcid1, htid1, hsum1⟩ := hspec.2.2.2.2.2.2.2.1 ar har
          rw [← hkeyEq] at har1
          obtain ⟨ar', har', hcid', htid', hsum'⟩ := hrec.2.2.2.2.2.2.2 ar1 har1
          rw [hkeyEq] at har'
          refine ⟨ar', har', hcid'.trans hcid1, htid'.trans htid1, ?_⟩
          rw [List.length_append] at hsum'
          omega
      | doneTick output =>
        simp only [hst] at h
        cases h
        refine ⟨hspec.1, hspec.2.1, hspec.2.2.1, hspec.2.2.2.1, hspec.2.2.2.2.1,
          hspec.2.2.2.2.2.1, hspec.2.2.2.2.2.2.1, ?_⟩
        intro ar har
        obtain ⟨ar1, har1, hcid1, htid1, hsum1⟩ := hspec.2.2.2.2.2.2.2.1 ar har
        refine ⟨ar1, har1, hcid1, htid1, ?_⟩
        simp only [resultFindings, List.length_append]
        omega
      | failedTick code msg =>
        simp only [hst] at h
        cases h
        refine ⟨hspec.1, hspec.2.1, hspec.2.2.1, hspec.2.2.2.1, hspec.2.2.2.2.1,
          hspec.2.2.2.2.2.1, hspec.2.2.2.2.2.2.1, ?_⟩
        intro ar har
        obtain ⟨ar1, har1, hcid1, htid1, hsum1⟩ := hspec.2.2.2.2.2.2.2.1 ar har
        refine ⟨ar1, har1, hcid1, htid1, ?_⟩
        simp only [resultFindings, List.length_append]
        omega

theorem tickUntilDone_interrupted_spec (config : ScanConfig) :
    ∀ (fuel : Nat) (s : RunnerState) (task : CheckTask) (acc : List Finding)
      (s' : RunnerState) (r : InterruptReason),
    tickUntilDone config fuel s task acc = .interruptedLoop s' r →
    s'.findings = s.findings ∧ s'.dependencies = s.dependencies ∧
    s'.dedupeKeys = s.dedupeKeys ∧ s'.executionHistory = s.executionHistory ∧
    s'.interruptReason = s.interruptReason ∧ s'.hasRun = s.hasRun ∧
    s.interruptReason = some r := by
  intro fuel
  induction fuel with
  | zero => intro s task acc s' r h; cases h
  | succ fuel ih =>
    intro s task acc s' r h
    unfold tickUntilDone at h
    cases he : execTick config s task with
    | error r0 =>
      rw [he] at h
      cases h
      exact ⟨rfl, rfl, rfl, rfl, rfl, rfl, (execTick_error_iff config s task r).mp he⟩
    | ok trip =>
      obtain ⟨s1, tickRes, task1⟩ := trip
      simp only [he] at h
      have hspec := execTick_ok_spec config s task s1 tickRes task1 he
      cases hst : tickRes.status with
      | continueTick =>
        simp only [hst] at h
        have hrec := ih s1 task1 (acc ++ tickRes.findings) s' r h
        exact ⟨hrec.1.trans hspec.1, hrec.2.1.trans hspec.2.1,
          hrec.2.2.1.trans hspec.2.2.1, hrec.2.2.2.1.trans hspec.2.2.2.1,
          hrec.2.2.2.2.1.trans hspec.2.2.2.2.1, hrec.2.2.2.2.2.1.trans hspec.2.2.2.2.2.1,
          hspec.2.2.2.2.1 ▸ hrec.2.2.2.2.2.2⟩
      | doneTick output => simp only [hst] at h; cases h
      | failedTick code msg => simp only [hst] at h; cases h

theorem totalFindingsCount_mapSet_append (m : List (String × List Finding))
    (checkId : String) (fs : List Finding) :
    totalFindingsCount (mapSet m checkId (((mapGet m checkId).getD []) ++ fs)) =
      totalFindingsCount m + fs.length := by
  induction m with
  | nil => simp [mapSet, mapGet, totalFindingsCount]
  | cons e rest ih =>
    by_cases he : e.1 = checkId
    · simp only [mapGet, mapSet, if_pos he, totalFindingsCount, List.map_cons, List.sum_cons]
      simp [List.length_append]
      omega
    · simp only [mapGet, mapSet, if_neg he, totalFindingsCount, List.map_cons, List.sum_cons]
      simp only [totalFindingsCount] at ih
      omega

theorem historyFindingsCount_append (hist : List CheckExecutionRecord)
    (r : CheckExecutionRecord) :
    historyFindingsCount (hist ++ [r]) = historyFindingsCount hist + recordFindingsCount r := by
  simp [historyFindingsCount]

theorem lastCompletedOutput_append_completed (hist : List CheckExecutionRecord)
    (r : CheckExecutionRecord) (output : Option JsonValue)
    (hout : r.outcome = .completed output) (checkId : String) :
    lastCompletedOutput (hist ++ [r]) checkId =
      if r.checkId = checkId then some output else lastCompletedOutput hist checkId := by
  unfold lastCompletedOutput
  rw [List.filter_append]
  by_cases hid : r.checkId = checkId
  · rw [if_pos hid]
    have hcomp : r.isCompleted = true := by
      unfold CheckExecutionRecord.isCompleted
      rw [hout]
    have : List.filter (fun rec => decide (rec.checkId = checkId ∧ rec.isCompleted = true)) [r] = [r] := by
      simp [List.filter, hid, hcomp]
    rw [this, List.getLast?_concat]
    simp [hout]
  · rw [if_neg hid]
    have : List.filter (fun rec => decide (rec.checkId = checkId ∧ rec.isCompleted = true)) [r] = [] := by
      simp [List.filter, hid]
    rw [this, List.append_nil]

theorem lastCompletedOutput_append_failed (hist : List CheckExecutionRecord)
    (r : CheckExecutionRecord) (code : ScanRunnableErrorCode) (msg : String)
    (hout : r.outcome = .failed code msg) (checkId : String) :
    lastCompletedOutput (hist ++ [r]) checkId = lastCompletedOutput hist checkId := by
  unfold lastCompletedOutput
  rw [List.filter_append]
  have hcomp : r.isCompleted = false := by
    unfold CheckExecutionRecord.isCompleted
    rw [hout]
  have : List.filter (fun rec => decide (rec.checkId = checkId ∧ rec.isCompleted = true)) [r] = [] := by
    simp [List.filter, hcomp]
  rw [this, List.append_nil]

theorem settleTask_spec (s2 : RunnerState) (cid tid : String)
    (res : TaskExecutionResult) (ar : ActiveRecord)
    (har : mapGet s2.activeCheckRecords (cid ++ "-" ++ tid) = some ar)
    (hcid : ar.checkId = cid)
    (hsum : stepsFindingsSum ar.steps = (resultFindings res).length) :
    (settleTask s2 cid tid res).dedupeKeys = s2.dedupeKeys ∧
    (settleTask s2 cid tid res).interruptReason = s2.interruptReason ∧
    (settleTask s2 cid tid res).hasRun = s2.hasRun ∧
    (invFindingsHistory s2 → invFindingsHistory (settleTask s2 cid tid res)) ∧
    (invDepsHistory s2 → invDepsHistory (settleTask s2 cid tid res)) := by
  cases res with
  | doneResult fs output =>
    simp only [settleTask, har]
    refine ⟨trivial, trivial, trivial, ?_, ?_⟩
    · intro hinv
      unfold invFindingsHistory at hinv ⊢
      simp only [totalFindingsCount_mapSet_append, historyFindingsCount_append]
      rw [hinv]
      simp only [recordFindingsCount]
      simp only [resultFindings] at hsum
      simp only [stepsFindingsSum] at hsum
      omega
    · intro hinv
      unfold invDepsHistory at hinv ⊢
      intro checkId
      rw [mapGet_mapSet]
      rw [lastCompletedOutput_append_completed _ _ output rfl]
      simp only [hcid]
      by_cases hid : checkId = cid
      · rw [if_pos hid, if_pos hid.symm]
      · rw [if_neg hid, if_neg (fun hh => hid hh.symm)]
        exact hinv checkId
  | failedResult fs code msg =>
    simp only [settleTask, har, emitEvent]
    refine ⟨trivial, trivial, trivial, ?_, ?_⟩
    · intro hinv
      unfold invFindingsHistory at hinv ⊢
      simp only [totalFindingsCount_mapSet_append, historyFindingsCount_append]
      rw [hinv]
      simp only [recordFindingsCount]
      simp only [resultFindings] at hsum
      simp only [stepsFindingsSum] at hsum
      omega
    · intro hinv
      unfold invDepsHistory at hinv ⊢
      intro checkId
      rw [lastCompletedOutput_append_failed _ _ code msg rfl]
      exact hinv checkId

theorem runTasks_started_active (m : List (String × ActiveRecord)) (cid tid : String) :
    mapGet (mapSet m (cid ++ "-" ++ tid)
      { checkId := cid, targetRequestId := tid, steps := [] }) (cid ++ "-" ++ tid) =
    some { checkId := cid, targetRequestId := tid, steps := [] } := by
  rw [mapGet_mapSet, if_pos rfl]

theorem runTasks_spec (config : ScanConfig) (fuel : Nat) :
    ∀ (tasks : List CheckTask) (s s' : RunnerState),
    runTasks config fuel s tasks = .batchDone s' →
    s'.dedupeKeys = s.dedupeKeys ∧
    s'.interruptReason = s.interruptReason ∧
    s'.hasRun = s.hasRun ∧
    (invFindingsHistory s → invFindingsHistory s') ∧
    (invDepsHistory s → invDepsHistory s') := by
  intro tasks
  induction tasks with
  | nil =>
    intro s s' h
    cases h
    exact ⟨rfl, rfl, rfl, fun hv => hv, fun hv => hv⟩
  | cons task rest ih =>
    intro s s' h
    simp only [runTasks] at h
    split at h
    · -- skipIfFoundBy short-circuit
      have hrest := ih _ s' h
      exact ⟨hrest.1, hrest.2.1, hrest.2.2.1, hrest.2.2.2.1, hrest.2.2.2.2⟩
    · split at h
      · cases h
      · -- interrupted: pool stop, state as of the interrupt
        rename_i sMid rMid heq
        cases h
        have hspec := tickUntilDone_interrupted_spec config fuel _ task [] _ _ heq
        refine ⟨hspec.2.2.1, hspec.2.2.2.2.1, hspec.2.2.2.2.2.1, ?_, ?_⟩
        · intro hinv
          unfold invFindingsHistory at hinv ⊢
          rw [hspec.1, hspec.2.2.2.1]
          exact hinv
        · intro hinv
          unfold invDepsHistory at hinv ⊢
          intro checkId
          rw [hspec.2.1, hspec.2.2.2.1]
          exact hinv checkId
      · -- settled: bookkeeping then the rest of the batch
        rename_i sMid res heq
        have hspec := tickUntilDone_spec config fuel _ task [] sMid res heq
        obtain ⟨ar, har, hcid, htid, hsum⟩ :=
          hspec.2.2.2.2.2.2.2
            { checkId := task.metadata.id
              targetRequestId := task.target.request.getId
              steps := [] }
            (runTasks_started_active s.activeCheckRecords task.metadata.id
              task.target.request.getId)
        have hsum' : stepsFindingsSum ar.steps = (resultFindings res).length := by
          simpa [stepsFindingsSum] using hsum
        have harKey : mapGet sMid.activeCheckRecords
            (task.metadata.id ++ "-" ++ task.target.request.getId) = some ar := har
        have hsettle := settleTask_spec sMid task.metadata.id task.target.request.getId res ar
          harKey hcid hsum'
        have hrest := ih _ s' h
        refine ⟨?_, ?_, ?_, ?_, ?_⟩
        · exact hrest.1.trans ((hsettle.1).trans hspec.2.2.1)
        · exact hrest.2.1.trans ((hsettle.2.1).trans hspec.2.2.2.2.1)
        · exact hrest.2.2.1.trans ((hsettle.2.2.1).trans hspec.2.2.2.2.2.1)
        · intro hinv
          refine hrest.2.2.2.1 (hsettle.2.2.2.1 ?_)
          unfold invFindingsHistory at hinv ⊢
          rw [hspec.1, hspec.2.2.2.1]
          exact hinv
        · intro hinv
          refine hrest.2.2.2.2 (hsettle.2.2.2.2 ?_)
          unfold invDepsHistory at hinv ⊢
          intro checkId
          rw [hspec.2.1, hspec.2.2.2.1]
          exact hinv checkId

theorem filterApplicable_spec (config : ScanConfig) (target : ScanTarget) :
    ∀ (batch : List CheckDefinition) (s : RunnerState),
    (filterApplicable config target s batch).1.findings = s.findings ∧
    (filterApplicable config target s batch).1.dependencies = s.dependencies ∧
    (filterApplicable config target s batch).1.executionHistory = s.executionHistory ∧
    (filterApplicable config target s batch).1.activeCheckRecords = s.activeCheckRecords ∧
    (filterApplicable config target s batch).1.interruptReason = s.interruptReason ∧
    (filterApplicable config target s batch).1.hasRun = s.hasRun ∧
    dedupeLe s.dedupeKeys (filterApplicable config target s batch).1.dedupeKeys := by
  intro batch
  induction batch with
  | nil =>
    intro s
    exact ⟨rfl, rfl, rfl, rfl, rfl, rfl, dedupeLe_refl _⟩
  | cons check rest ih =>
    intro s
    simp only [filterApplicable]
    cases hA : isCheckApplicable check target config s.dedupeKeys with
    | mk ok dk' =>
      simp only
      have hmono : dedupeLe s.dedupeKeys dk' := by
        have := isCheckApplicable_mono check target config s.dedupeKeys
        rw [hA] at this
        exact this
      have hrec := ih { s with dedupeKeys := dk' }
      cases hF : filterApplicable config target { s with dedupeKeys := dk' } rest with
      | mk s2 kept =>
        rw [hF] at hrec
        have core : s2.findings = s.findings ∧ s2.dependencies = s.dependencies ∧
            s2.executionHistory = s.executionHistory ∧
            s2.activeCheckRecords = s.activeCheckRecords ∧
            s2.interruptReason = s.interruptReason ∧ s2.hasRun = s.hasRun ∧
            dedupeLe s.dedupeKeys s2.dedupeKeys :=
          ⟨hrec.1, hrec.2.1, hrec.2.2.1, hrec.2.2.2.1, hrec.2.2.2.2.1, hrec.2.2.2.2.2.1,
            dedupeLe_trans hmono hrec.2.2.2.2.2.2⟩
        cases ok with
        | true => simpa using core
        | false => simpa using core

theorem processBatch_spec (config : ScanConfig) (fuel : Nat) (s : RunnerState)
    (batch : List CheckDefinition) (target : ScanTarget) (s' : RunnerState)
    (h : processBatch config fuel s batch target = .batchDone s') :
    dedupeLe s.dedupeKeys s'.dedupeKeys ∧
    s'.interruptReason = s.interruptReason ∧
    s'.hasRun = s.hasRun ∧
    (invFindingsHistory s → invFindingsHistory s') ∧
    (invDepsHistory s → invDepsHistory s') := by
  unfold processBatch at h
  cases hF : filterApplicable config target s batch with
  | mk s1 applicable =>
    rw [hF] at h
    have hfa := filterApplicable_spec config target batch s
    rw [hF] at hfa
    have hrt := runTasks_spec config fuel _ s1 s' h
    refine ⟨?_, hrt.2.1.trans hfa.2.2.2.2.1, hrt.2.2.1.trans hfa.2.2.2.2.2.1, ?_, ?_⟩
    · rw [hrt.1]
      exact hfa.2.2.2.2.2.2
    · intro hinv
      refine hrt.2.2.2.1 ?_
      unfold invFindingsHistory at hinv ⊢
      rw [hfa.1, hfa.2.2.1]
      exact hinv
    · intro hinv
      refine hrt.2.2.2.2 ?_
      unfold invDepsHistory at hinv ⊢
      intro checkId
      rw [hfa.2.1, hfa.2.2.1]
      exact hinv checkId

theorem processBatchesLoop_no_throw (config : ScanConfig) (fuel : Nat) :
    ∀ (batches : List (List CheckDefinition)) (s : RunnerState) (target : ScanTarget)
      (s' : RunnerState) (e : Thrown),
    processBatchesLoop config fuel s batches target ≠ .targetThrew s' e := by
  intro batches
  induction batches with
  | nil => intro s target s' e h; cases h
  | cons batch rest ih =>
    intro s target s' e h
    unfold processBatchesLoop at h
    cases hi : s.interruptReason with
    | some r => rw [hi] at h; cases h
    | none =>
      rw [hi] at h
      cases hB : processBatch config fuel s batch target with
      | batchDiverge => rw [hB] at h; cases h
      | batchDone s2 => rw [hB] at h; exact ih s2 target s' e h

theorem processBatchesLoop_ok_spec (config : ScanConfig) (fuel : Nat) :
    ∀ (batches : List (List CheckDefinition)) (s : RunnerState) (target : ScanTarget)
      (s' : RunnerState),
    (processBatchesLoop config fuel s batches target = .targetOk s' ∨
      ∃ r, processBatchesLoop config fuel s batches target = .targetInterrupted s' r) →
    dedupeLe s.dedupeKeys s'.dedupeKeys ∧
    s'.interruptReason = s.interruptReason ∧
    s'.hasRun = s.hasRun ∧
    (invFindingsHistory s → invFindingsHistory s') ∧
    (invDepsHistory s → invDepsHistory s') := by
  intro batches
  induction batches with
  | nil =>
    intro s target s' h
    cases h with
    | inl h => cases h; exact ⟨dedupeLe_refl _, rfl, rfl, fun hv => hv, fun hv => hv⟩
    | inr h => obtain ⟨r, h⟩ := h; cases h
  | cons batch rest ih =>
    intro s target s' h
    have hsplit : processBatchesLoop config fuel s (batch :: rest) target =
        (match s.interruptReason with
         | some r => .targetInterrupted s r
         | none =>
           match processBatch config fuel s batch target with
           | .batchDiverge => .targetDiverge
           | .batchDone s2 => processBatchesLoop config fuel s2 rest target) := rfl
    cases hi : s.interruptReason with
    | some r0 =>
      rw [hsplit, hi] at h
      cases h with
      | inl h => cases h
      | inr h =>
        obtain ⟨r, h⟩ := h
        cases h
        exact ⟨dedupeLe_refl _, hi, rfl, fun hv => hv, fun hv => hv⟩
    | none =>
      rw [hsplit, hi] at h
      cases hB : processBatch config fuel s batch target with
      | batchDiverge =>
        rw [hB] at h
        cases h with
        | inl h => cases h
        | inr h => obtain ⟨r, h⟩ := h; cases h
      | batchDone s2 =>
        rw [hB] at h
        have hpb := processBatch_spec config fuel s batch target s2 hB
        have hrec := ih s2 target s' h
        exact ⟨dedupeLe_trans hpb.1 hrec.1, hrec.2.1.trans (hpb.2.1.trans hi),
          hrec.2.2.1.trans hpb.2.2.1, fun hv => hrec.2.2.2.1 (hpb.2.2.2.1 hv),
          fun hv => hrec.2.2.2.2 (hpb.2.2.2.2 hv)⟩

theorem processTarget_throw_spec (host : HostRequests) (config : ScanConfig)
    (batches : List (List CheckDefinition)) (fuel : Nat)
    (s : RunnerState) (requestID : String) (s' : RunnerState) (e : Thrown)
    (h : processTarget host config batches fuel s requestID = .targetThrew s' e) :
    mapGet host requestID = none ∧ s' = s ∧
    e = .runnable .requestNotFound ("Request " ++ requestID ++ " not found") := by
  unfold processTarget at h
  cases hm : mapGet host requestID with
  | none =>
    rw [hm] at h
    cases h
    exact ⟨rfl, rfl, rfl⟩
  | some target =>
    rw [hm] at h
    exact absurd h (processBatchesLoop_no_throw config fuel batches s target s' e)

theorem processTarget_ok_spec (host : HostRequests) (config : ScanConfig)
    (batches : List (List CheckDefinition)) (fuel : Nat)
    (s : RunnerState) (requestID : String) (s' : RunnerState)
    (h : processTarget host config batches fuel s requestID = .targetOk s' ∨
      ∃ r, processTarget host config batches fuel s requestID = .targetInterrupted s' r) :
    dedupeLe s.dedupeKeys s'.dedupeKeys ∧
    s'.interruptReason = s.interruptReason ∧
    s'.hasRun = s.hasRun ∧
    (invFindingsHistory s → invFindingsHistory s') ∧
    (invDepsHistory s → invDepsHistory s') := by
  unfold processTarget at h
  cases hm : mapGet host requestID with
  | none =>
    rw [hm] at h
    cases h with
    | inl h => cases h
    | inr h => obtain ⟨r, h⟩ := h; cases h
  | some target =>
    rw [hm] at h
    exact processBatchesLoop_ok_spec config fuel batches s target s' h

theorem targetsLoop_never_interrupted (host : HostRequests) (config : ScanConfig)
    (batches : List (List CheckDefinition)) (fuel : Nat) :
    ∀ (requestIDs : List String) (s s' : RunnerState) (r : InterruptReason),
    targetsLoop host config batches fuel s requestIDs ≠ .targetInterrupted s' r := by
  intro requestIDs
  induction requestIDs with
  | nil => intro s s' r h; cases h
  | cons rid rest ih =>
    intro s s' r h
    unfold targetsLoop at h
    cases hp : processTarget host config batches fuel s rid with
    | targetOk s1 => rw [hp] at h; exact ih s1 s' r h
    | targetInterrupted s1 r1 => rw [hp] at h; cases h
    | targetThrew s1 e => rw [hp] at h; cases h
    | targetDiverge => rw [hp] at h; cases h

theorem targetsLoop_ok_spec (host : HostRequests) (config : ScanConfig)
    (batches : List (List CheckDefinition)) (fuel : Nat) :
    ∀ (requestIDs : List String) (s s' : RunnerState),
    targetsLoop host config batches fuel s requestIDs = .targetOk s' →
    dedupeLe s.dedupeKeys s'.dedupeKeys ∧
    s'.hasRun = s.hasRun ∧
    (invFindingsHistory s → invFindingsHistory s') ∧
    (invDepsHistory s → invDepsHistory s') := by
  intro requestIDs
  induction requestIDs with
  | nil =>
    intro s s' h
    cases h
    exact ⟨dedupeLe_refl _, rfl, fun hv => hv, fun hv => hv⟩
  | cons rid rest ih =>
    intro s s' h
    unfold targetsLoop at h
    cases hp : processTarget host config batches fuel s rid with
    | targetOk s1 =>
      rw [hp] at h
      have hpt := processTarget_ok_spec host config batches fuel s rid s1 (Or.inl hp)
      have hrec := ih s1 s' h
      exact ⟨dedupeLe_trans hpt.1 hrec.1, hrec.2.1.trans hpt.2.2.1,
        fun hv => hrec.2.2.1 (hpt.2.2.2.1 hv), fun hv => hrec.2.2.2 (hpt.2.2.2.2 hv)⟩
    | targetInterrupted s1 r1 =>
      rw [hp] at h
      cases h
      have hpt := processTarget_ok_spec host config batches fuel s rid s' (Or.inr ⟨r1, hp⟩)
      exact ⟨hpt.1, hpt.2.2.1, hpt.2.2.2.1, hpt.2.2.2.2⟩
    | targetThrew s1 e => rw [hp] at h; cases h
    | targetDiverge => rw [hp] at h; cases h

theorem targetsLoop_throw_spec (host : HostRequests) (config : ScanConfig)
    (batches : List (List CheckDefinition)) (fuel : Nat) :
    ∀ (requestIDs : List String) (s s' : RunnerState) (e : Thrown),
    targetsLoop host config batches fuel s requestIDs = .targetThrew s' e →
    (∃ rid ∈ requestIDs, mapGet host rid = none) ∧
    dedupeLe s.dedupeKeys s'.dedupeKeys ∧
    s'.hasRun = s.hasRun ∧
    (invFindingsHistory s → invFindingsHistory s') ∧
    (invDepsHistory s → invDepsHistory s') := by
  intro requestIDs
  induction requestIDs with
  | nil => intro s s' e h; cases h
  | cons rid rest ih =>
    intro s s' e h
    unfold targetsLoop at h
    cases hp : processTarget host config batches fuel s rid with
    | targetOk s1 =>
      rw [hp] at h
      have hpt := processTarget_ok_spec host config batches fuel s rid s1 (Or.inl hp)
      obtain ⟨⟨rid', hmem, hnone⟩, hle, hrun, hi1, hi2⟩ := ih s1 s' e h
      exact ⟨⟨rid', List.mem_cons_of_mem _ hmem, hnone⟩, dedupeLe_trans hpt.1 hle,
        hrun.trans hpt.2.2.1, fun hv => hi1 (hpt.2.2.2.1 hv), fun hv => hi2 (hpt.2.2.2.2 hv)⟩
    | targetInterrupted s1 r1 => rw [hp] at h; cases h
    | targetThrew s1 e1 =>
      rw [hp] at h
      cases h
      obtain ⟨hnone, hseq, _⟩ := processTarget_throw_spec host config batches fuel s rid s' e hp
      cases hseq
      exact ⟨⟨rid, List.mem_cons_self _ _, hnone⟩, dedupeLe_refl _, rfl,
        fun hv => hv, fun hv => hv⟩
    | targetDiverge => rw [hp] at h; cases h

theorem runScan_anatomy (host : HostRequests) (config : ScanConfig)
    (batches : List (List CheckDefinition)) (fuel : Nat)
    (s : RunnerState) (requestIDs : List String) (res : ScanResult) (s' : RunnerState)
    (hfresh : s.hasRun = false)
    (h : runScan host config batches fuel s requestIDs = .runOk res s') :
    (∀ fs, res = .finished fs → fs = flattenFindings s'.findings) ∧
    (∀ r fs, res = .interrupted r fs → False) ∧
    dedupeLe s.dedupeKeys s'.dedupeKeys ∧
    (invFindingsHistory s → invFindingsHistory s') ∧
    (invDepsHistory s → invDepsHistory s') ∧
    (∀ msg, res = .errorResult msg → ∃ rid ∈ requestIDs, mapGet host rid = none) := by
  unfold runScan at h
  rw [if_neg (by rw [hfresh]; exact Bool.false_ne_true)] at h
  dsimp only at h
  split at h
  · -- targetsLoop finished normally
    rename_i sL heq
    cases h
    have hspec := targetsLoop_ok_spec host config batches fuel requestIDs _ sL heq
    refine ⟨?_, ?_, hspec.1, ?_, ?_, ?_⟩
    · intro fs hres
      cases hres
      rfl
    · intro r fs hres; cases hres
    · exact fun hv => hspec.2.2.1 hv
    · exact fun hv => hspec.2.2.2 hv
    · intro msg hres; cases hres
  · -- interrupted out of the pool: unreachable
    rename_i sL r heq
    exact absurd heq (targetsLoop_never_interrupted host config batches fuel requestIDs _ sL r)
  · -- a thrown error became an Error result
    rename_i sL e heq
    cases h
    have hspec := targetsLoop_throw_spec host config batches fuel requestIDs _ sL e heq
    refine ⟨?_, ?_, hspec.2.1, fun hv => hspec.2.2.2.1 hv, fun hv => hspec.2.2.2.2 hv, ?_⟩
    · intro fs hres; cases hres
    · intro r fs hres; cases hres
    · intro msg hres
      exact hspec.1
  · cases h

theorem flattenFindings_length (m : List (String × List Finding)) :
    (flattenFindings m).length = totalFindingsCount m := by
  induction m with
  | nil => rfl
  | cons e rest ih =>
    simp only [flattenFindings, totalFindingsCount, List.map_cons, List.flatten_cons,
      List.length_append, List.sum_cons] at ih ⊢
    omega

theorem invFindingsHistory_initial : invFindingsHistory initialRunnerState := rfl

theorem invDepsHistory_initial : invDepsHistory initialRunnerState := fun _ => rfl

/-! # Claim C1 (amended) — findings total equals the sum over all records -/

/-- **C1 (amended).** For every scan from a fresh runner whose run returns
kind `Finished` or `Interrupted`, the number of findings in the returned list
equals the sum of the findings counts across the steps of *all* execution
history records — `completed` and `failed` alike. (Findings emitted by the
completed steps of a check that later fails do contribute; only a check
interrupted mid-flight contributes to neither side.) -/
theorem findings_total_equals_history (host : HostRequests) (config : ScanConfig)
    (batches : List (List CheckDefinition)) (fuel : Nat) (requestIDs : List String)
    (res : ScanResult) (s' : RunnerState)
    (h : runScan host config batches fuel initialRunnerState requestIDs = .runOk res s') :
    (∀ fs, res = .finished fs →
      fs.length = historyFindingsCount s'.executionHistory) ∧
    (∀ r fs, res = .interrupted r fs →
      fs.length = historyFindingsCount s'.executionHistory) := by
  have hana := runScan_anatomy host config batches fuel initialRunnerState requestIDs res s'
    rfl h
  have hinv : invFindingsHistory s' := hana.2.2.2.1 invFindingsHistory_initial
  constructor
  · intro fs hres
    rw [hana.1 fs hres, flattenFindings_length]
    exact hinv
  · intro r fs hres
    exact absurd hres (fun hh => hana.2.1 r fs hh)

/-- Witness for the amended C1 on the concrete partial-failure scan. -/
theorem findings_total_equals_history_witness :
    ∃ res s',
      runScan fixtureHost1 fixtureConfig [[partialFailCheck]] 10 initialRunnerState ["1"] =
        .runOk res s' ∧
      (∀ fs, res = .finished fs →
        fs.length = historyFindingsCount s'.executionHistory) :=
  ⟨_, _, rfl,
    (findings_total_equals_history fixtureHost1 fixtureConfig [[partialFailCheck]] 10
      ["1"] _ _ rfl).1⟩

/-! # Claim C9 — dependency outputs are keyed by check id only -/

/-- **C9.** Dependency outputs live in one map keyed by check id alone: after
any run from a fresh runner, the entry under a check id is exactly the
`finalOutput` of the most recent `completed` history record of that check —
whichever target produced it. A later `dependencies.get(id)` therefore sees
the output of the last completed execution, not necessarily the caller's own
target's. -/
theorem dependencies_keyed_by_check_id (host : HostRequests) (config : ScanConfig)
    (batches : List (List CheckDefinition)) (fuel : Nat) (requestIDs : List String)
    (res : ScanResult) (s' : RunnerState)
    (h : runScan host config batches fuel initialRunnerState requestIDs = .runOk res s') :
    ∀ checkId, mapGet s'.dependencies checkId =
      lastCompletedOutput s'.executionHistory checkId := by
  have hana := runScan_anatomy host config batches fuel initialRunnerState requestIDs res s'
    rfl h
  exact hana.2.2.2.2.1 invDepsHistory_initial

/-- Witness for C9: scanning two targets with a check whose output is its
target's request id leaves the id of the *second* target in the dependency
map. -/
theorem dependencies_keyed_by_check_id_witness :
    ∃ res s',
      runScan fixtureHost2 fixtureConfig [[outputIdCheck]] 10 initialRunnerState ["1", "2"] =
        .runOk res s' ∧
      (∀ checkId, mapGet s'.dependencies checkId =
        lastCompletedOutput s'.executionHistory checkId) ∧
      mapGet s'.dependencies "output-id" = some (some (.str "2")) :=
  ⟨_, _, rfl,
    dependencies_keyed_by_check_id fixtureHost2 fixtureConfig [[outputIdCheck]] 10
      ["1", "2"] _ _ rfl,
    rfl⟩

theorem isCheckApplicable_true_mem (check : CheckDefinition) (t : ScanTarget)
    (config : ScanConfig) (dk : List (String × List String))
    (keyFn : ScanTarget → String)
    (hkey : check.dedupeKey = some keyFn)
    (happ : (isCheckApplicable check t config dk).1 = true) :
    keyFn t ∈ (mapGet (isCheckApplicable check t config dk).2 check.metadata.id).getD [] := by
  have hded : ∀ (d : List (String × List String)),
      (isCheckApplicable.isCheckApplicableDedupe check t d).1 = true →
      keyFn t ∈ (mapGet (isCheckApplicable.isCheckApplicableDedupe check t d).2
        check.metadata.id).getD [] := by
    intro d htrue
    unfold isCheckApplicable.isCheckApplicableDedupe at htrue ⊢
    rw [hkey] at htrue ⊢
    dsimp only at htrue ⊢
    by_cases hc : ((mapGet d check.metadata.id).getD []).contains (keyFn t)
    · rw [if_pos hc] at htrue
      cases htrue
    · rw [if_neg hc] at htrue ⊢
      rw [mapGet_mapSet, if_pos rfl]
      exact mem_setAdd_self _ _
  unfold isCheckApplicable at happ ⊢
  by_cases h1 : check.metadata.severities.any (fun sv => config.severities.contains sv) = true
  · rw [if_neg (not_not_intro h1)] at happ ⊢
    by_cases h2 : (match check.metadata.minAggressivity with
                   | some m => decide (m > config.aggressivity)
                   | none => false) = true
    · rw [if_pos h2] at happ
      cases happ
    · rw [if_neg h2] at happ ⊢
      cases hw : check.when with
      | none =>
        rw [hw] at happ
        dsimp only at happ ⊢
        exact hded dk happ
      | some w =>
        rw [hw] at happ
        dsimp only at happ ⊢
        by_cases hwt : w t = true
        · rw [if_neg (not_not_intro hwt)] at happ ⊢
          exact hded dk happ
        · rw [if_pos hwt] at happ
          cases happ
  · rw [if_pos h1] at happ
    cases happ

/-! # Claim C4 — once per `(checkId, key)` pair -/

/-- **C4.** A check with a dedupe key runs at most once per `(checkId, key)`
pair for the lifetime of the scan: the first applicability test that reaches
the dedupe stage (severity, aggressivity and `when` filters pass) with a
fresh key reports the check applicable and claims the key; afterwards every
applicability test of the same check producing the same key reports it not
applicable, on any dedupe map extending the claimed one — and a run only ever
extends the map. -/
theorem dedupe_key_claimed_once (check : CheckDefinition) (t : ScanTarget)
    (config : ScanConfig) (dk : List (String × List String))
    (keyFn : ScanTarget → String)
    (hkey : check.dedupeKey = some keyFn)
    (hsev : check.metadata.severities.any (fun sv => config.severities.contains sv) = true)
    (hagg : (match check.metadata.minAggressivity with
             | some m => decide (m > config.aggressivity)
             | none => false) = false)
    (hwhen : ∀ w, check.when = some w → w t = true)
    (hfreshKey : keyFn t ∉ (mapGet dk check.metadata.id).getD []) :
    (isCheckApplicable check t config dk).1 = true ∧
    keyFn t ∈ (mapGet (isCheckApplicable check t config dk).2 check.metadata.id).getD [] ∧
    (∀ dk2, dedupeLe (isCheckApplicable check t config dk).2 dk2 →
      ∀ t2, keyFn t2 = keyFn t → (isCheckApplicable check t2 config dk2).1 = false) ∧
    (∀ (host : HostRequests) (batches : List (List CheckDefinition)) (fuel : Nat)
      (s : RunnerState) (requestIDs : List String) (res : ScanResult) (s' : RunnerState),
      runScan host config batches fuel s requestIDs = .runOk res s' →
      dedupeLe s.dedupeKeys s'.dedupeKeys) := by
  have heq := isCheckApplicable_eq_dedupe check t config dk hsev hagg hwhen
  have hclaim := isCheckApplicableDedupe_claims check t dk keyFn hkey hfreshKey
  refine ⟨by rw [heq]; exact hclaim.1, by rw [heq]; exact hclaim.2, ?_, ?_⟩
  · intro dk2 hle t2 hk2
    have hmem : keyFn t2 ∈ (mapGet dk2 check.metadata.id).getD [] := by
      rw [hk2]
      refine hle check.metadata.id (keyFn t) ?_
      rw [heq]
      exact hclaim.2
    exact isCheckApplicable_false_of_mem check t2 config dk2 keyFn hkey hmem
  · intro host batches fuel s requestIDs res s' hrun
    by_cases hr : s.hasRun = true
    · unfold runScan at hrun
      rw [if_pos hr] at hrun
      cases hrun
      exact dedupeLe_refl _
    · have hana := runScan_anatomy host config batches fuel s requestIDs res s'
        (Bool.not_eq_true s.hasRun ▸ hr) hrun
      exact hana.2.2.1

/-- Witness for C4 at the host-keyed dedupe check and an empty index. -/
theorem dedupe_key_claimed_once_witness :
    dedupeHostCheck.metadata.severities.any
      (fun sv => fixtureConfig.severities.contains sv) = true ∧
    ((isCheckApplicable dedupeHostCheck (fixtureTarget "1") fixtureConfig []).1 = true ∧
      (fun t => t.request.host) (fixtureTarget "1") ∈
        (mapGet (isCheckApplicable dedupeHostCheck (fixtureTarget "1") fixtureConfig []).2
          dedupeHostCheck.metadata.id).getD [] ∧
      (∀ dk2, dedupeLe
          (isCheckApplicable dedupeHostCheck (fixtureTarget "1") fixtureConfig []).2 dk2 →
        ∀ t2, (fun t => t.request.host) t2 = (fun t => t.request.host) (fixtureTarget "1") →
          (isCheckApplicable dedupeHostCheck t2 fixtureConfig dk2).1 = false) ∧
      (∀ (host : HostRequests) (batches : List (List CheckDefinition)) (fuel : Nat)
        (s : RunnerState) (requestIDs : List String) (res : ScanResult) (s' : RunnerState),
        runScan host fixtureConfig batches fuel s requestIDs = .runOk res s' →
        dedupeLe s.dedupeKeys s'.dedupeKeys)) :=
  ⟨rfl,
    dedupe_key_claimed_once dedupeHostCheck (fixtureTarget "1") fixtureConfig []
      (fun t => t.request.host) rfl rfl rfl
      (fun _w hw => Option.noConfusion hw)
      (fun hmem => List.not_mem_nil _ hmem)⟩

/-! # Claim C10 — a `skipIfFoundBy` skip leaves findings, dependencies and
history untouched but still emits the check lifecycle events -/

/-- **C10.** When an applicable check with a truthy `skipIfFoundBy` is
skipped because findings already exist under the inspected id, the batch
executor still emits `scan:check-started` and `scan:check-finished` for it,
and its dedupe key (when it has one) stays claimed; but no execution record
is appended and the findings and dependencies maps are left unchanged. -/
theorem skipIfFoundBy_skip_frame (config : ScanConfig) (fuel : Nat)
    (check : CheckDefinition) (t : ScanTarget) (s : RunnerState)
    (happ : (isCheckApplicable check t config s.dedupeKeys).1 = true)
    (hskip : truthyOptStr check.metadata.skipIfFoundBy = true)
    (hfound : ((mapGet s.findings check.metadata.id).getD []) ≠ []) :
    ∃ s', processBatch config fuel s [check] t = .batchDone s' ∧
      s'.findings = s.findings ∧
      s'.dependencies = s.dependencies ∧
      s'.executionHistory = s.executionHistory ∧
      s'.dedupeKeys = (isCheckApplicable check t config s.dedupeKeys).2 ∧
      s'.events = s.events ++
        [.checkStarted check.metadata.id t.request.getId,
         .checkFinished check.metadata.id t.request.getId] ∧
      (∀ keyFn, check.dedupeKey = some keyFn →
        keyFn t ∈ (mapGet s'.dedupeKeys check.metadata.id).getD []) := by
  cases hA : isCheckApplicable check t config s.dedupeKeys with
  | mk ok dk' =>
    have hok : ok = true := by rw [hA] at happ; exact happ
    subst hok
    have hrun : processBatch config fuel s [check] t = .batchDone
        (emitEvent (emitEvent
          { s with
              dedupeKeys := dk'
              activeCheckRecords :=
                mapSet s.activeCheckRecords (check.metadata.id ++ "-" ++ t.request.getId)
                  ⟨check.metadata.id, t.request.getId, []⟩ }
          (.checkStarted check.metadata.id t.request.getId))
          (.checkFinished check.metadata.id t.request.getId)) := by
      unfold processBatch
      simp only [filterApplicable, hA]
      simp only [runTasks, List.map_cons, List.map_nil, createTask]
      rw [if_pos ⟨hskip, hfound⟩]
      rfl
    refine ⟨_, hrun, rfl, rfl, rfl, ?_, ?_, ?_⟩
    · rfl
    · simp [emitEvent]
    · intro keyFn hkeyFn
      have hm := isCheckApplicable_true_mem check t config s.dedupeKeys keyFn hkeyFn
        (by rw [hA])
      rw [hA] at hm
      exact hm

/-- Witness for C10: the configured-skip check on a state that already holds
findings under its own id. -/
theorem skipIfFoundBy_skip_frame_witness :
    truthyOptStr skipConfiguredCheck.metadata.skipIfFoundBy = true ∧
    ((mapGet stateWithOwnFindings.findings skipConfiguredCheck.metadata.id).getD []) ≠ [] ∧
    (∃ s', processBatch fixtureConfig 10 stateWithOwnFindings [skipConfiguredCheck]
        (fixtureTarget "1") = .batchDone s' ∧
      s'.findings = stateWithOwnFindings.findings ∧
      s'.dependencies = stateWithOwnFindings.dependencies ∧
      s'.executionHistory = stateWithOwnFindings.executionHistory ∧
      s'.dedupeKeys = (isCheckApplicable skipConfiguredCheck (fixtureTarget "1")
        fixtureConfig stateWithOwnFindings.dedupeKeys).2 ∧
      s'.events = stateWithOwnFindings.events ++
        [.checkStarted skipConfiguredCheck.metadata.id (fixtureTarget "1").request.getId,
         .checkFinished skipConfiguredCheck.metadata.id (fixtureTarget "1").request.getId] ∧
      (∀ keyFn, skipConfiguredCheck.dedupeKey = some keyFn →
        keyFn (fixtureTarget "1") ∈
          (mapGet s'.dedupeKeys skipConfiguredCheck.metadata.id).getD [])) :=
  ⟨rfl, by decide,
    skipIfFoundBy_skip_frame fixtureConfig 10 skipConfiguredCheck (fixtureTarget "1")
      stateWithOwnFindings rfl rfl (by decide)⟩

/-! # Claim C6 — check-thrown errors become `failed` results -/

/-- **C6.** When a check task's `tick()` throws, the interpreter catches the
value and returns a `failed` result — a `ScanRunnableError` keeps its code
and message, any other error maps to `UNKNOWN_CHECK_ERROR` with its message —
recording nothing for the aborted tick; no exception escapes the tick, the
loop settles, a batch never surfaces a thrown error to the target level, and
a run whose targets all resolve still finishes. -/
theorem tick_catches_check_errors (config : ScanConfig) (s : RunnerState)
    (task : CheckTask) (e : Thrown)
    (hni : s.interruptReason = none)
    (hthrow : task.tick ⟨task.target, s.dependencies, config⟩ = .error e) :
    execTick config s task = .ok (s,
      { findings := [],
        status := .failedTick (codeOfThrown e) (messageOfThrown e) }, task) ∧
    (∀ code msg, e = .runnable code msg →
      codeOfThrown e = code ∧ messageOfThrown e = msg) ∧
    (∀ msg, e = .jsError msg →
      codeOfThrown e = .unknownCheckError ∧ messageOfThrown e = msg) ∧
    (∀ (fuel : Nat) (acc : List Finding),
      tickUntilDone config (fuel + 1) s task acc =
        .settled s (.failedResult acc (codeOfThrown e) (messageOfThrown e))) ∧
    (∀ (batches : List (List CheckDefinition)) (target : ScanTarget) (fuel : Nat)
      (s2 s' : RunnerState) (e' : Thrown),
      processBatchesLoop config fuel s2 batches target ≠ .targetThrew s' e') ∧
    (∀ (host : HostRequests) (batches : List (List CheckDefinition)) (fuel : Nat)
      (requestIDs : List String) (res : ScanResult) (s' : RunnerState),
      (∀ rid ∈ requestIDs, (mapGet host rid).isSome = true) →
      runScan host config batches fuel initialRunnerState requestIDs = .runOk res s' →
      ∃ fs, res = .finished fs) := by
  have hexec : execTick config s task = .ok (s,
      { findings := [],
        status := .failedTick (codeOfThrown e) (messageOfThrown e) }, task) := by
    unfold execTick
    rw [hni]
    simp only [hthrow]
  refine ⟨hexec, ?_, ?_, ?_, ?_, ?_⟩
  · intro code msg he
    subst he
    exact ⟨rfl, rfl⟩
  · intro msg he
    subst he
    exact ⟨rfl, rfl⟩
  · intro fuel acc
    unfold tickUntilDone
    simp only [hexec, List.append_nil]
  · intro batches target fuel s2 s' e'
    exact processBatchesLoop_no_throw config fuel batches s2 target s' e'
  · intro host batches fuel requestIDs res s' hpresent hrun
    have hana := runScan_anatomy host config batches fuel initialRunnerState requestIDs
      res s' rfl hrun
    cases res with
    | finished fs => exact ⟨fs, rfl⟩
    | interrupted r fs => exact absurd rfl (fun hh => hana.2.1 r fs hh)
    | errorResult msg =>
      obtain ⟨rid, hmem, hnone⟩ := hana.2.2.2.2.2 msg rfl
      have := hpresent rid hmem
      rw [hnone] at this
      cases this

/-- Witness for C6: a single-step check throwing a `ScanRunnableError`. -/
theorem tick_catches_check_errors_witness :
    (createTask runnableThrowCheck (fixtureTarget "1")).tick
      ⟨(createTask runnableThrowCheck (fixtureTarget "1")).target,
        initialRunnerState.dependencies, fixtureConfig⟩ =
      .error (.runnable .requestNotFound "fixture runnable error") ∧
    execTick fixtureConfig initialRunnerState (createTask runnableThrowCheck (fixtureTarget "1")) =
      .ok (initialRunnerState,
        { findings := [],
          status := .failedTick
            (codeOfThrown (.runnable .requestNotFound "fixture runnable error"))
            (messageOfThrown (.runnable .requestNotFound "fixture runnable error")) },
        createTask runnableThrowCheck (fixtureTarget "1")) :=
  ⟨rfl,
    (tick_catches_check_errors fixtureConfig initialRunnerState
      (createTask runnableThrowCheck (fixtureTarget "1"))
      (.runnable .requestNotFound "fixture runnable error") rfl rfl).1⟩

/-! # Claim C3 — planner batches are a topological layering -/

theorem mapGet_mem {α : Type} (m : List (String × α)) (k : String) (v : α)
    (h : mapGet m k = some v) : (k, v) ∈ m := by
  induction m with
  | nil => cases h
  | cons e rest ih =>
    unfold mapGet at h
    by_cases he : e.1 = k
    · rw [if_pos he] at h
      cases h
      subst he
      exact List.mem_cons_self e rest
    · rw [if_neg he] at h
      exact List.mem_cons_of_mem _ (ih h)

theorem mapGet_isSome_iff {α : Type} (m : List (String × α)) (k : String) :
    (mapGet m k).isSome = true ↔ k ∈ m.map (fun e => e.1) := by
  induction m with
  | nil => simp [mapGet]
  | cons e rest ih =>
    unfold mapGet
    by_cases he : e.1 = k
    · simp [he]
    · simp only [if_neg he, List.map_cons, List.mem_cons]
      rw [ih]
      constructor
      · intro h; right; exact h
      · intro h
        cases h with
        | inl h => exact absurd h.symm he
        | inr h => exact h

theorem mem_mapGet_of_nodup {α : Type} (m : List (String × α)) (k : String) (v : α)
    (hnd : (m.map (fun e => e.1)).Nodup) (hmem : (k, v) ∈ m) :
    mapGet m k = some v := by
  induction m with
  | nil => cases hmem
  | cons e rest ih =>
    rw [List.map_cons, List.nodup_cons] at hnd
    cases hmem with
    | head => simp [mapGet]
    | tail _ hmem2 =>
      have hk : k ∈ rest.map (fun e => e.1) := List.mem_map_of_mem _ hmem2
      unfold mapGet
      by_cases he : e.1 = k
      · exact absurd (he ▸ hk) hnd.1
      · rw [if_neg he]
        exact ih hnd.2 hmem2

theorem mapGet_append_some {α : Type} (l1 l2 : List (String × α)) (k : String) (v : α)
    (h : mapGet l1 k = some v) : mapGet (l1 ++ l2) k = some v := by
  induction l1 with
  | nil => cases h
  | cons e rest ih =>
    unfold mapGet at h
    unfold mapGet
    by_cases he : e.1 = k
    · rw [if_pos he] at h
      simp only [List.cons_append, if_pos he]
      exact h
    · rw [if_neg he] at h
      simp only [List.cons_append, if_neg he]
      exact ih h

theorem mapGet_cons_ne {α : Type} (e : String × α) (rest : List (String × α)) (k : String)
    (he : ¬ e.1 = k) : mapGet (e :: rest) k = mapGet rest k := by
  conv_lhs => unfold mapGet
  rw [if_neg he]

theorem mapGet_append_none {α : Type} (l1 l2 : List (String × α)) (k : String)
    (h : mapGet l1 k = none) : mapGet (l1 ++ l2) k = mapGet l2 k := by
  induction l1 with
  | nil => rfl
  | cons e rest ih =>
    by_cases he : e.1 = k
    · unfold mapGet at h
      rw [if_pos he] at h
      cases h
    · rw [mapGet_cons_ne e rest k he] at h
      rw [List.cons_append, mapGet_cons_ne e (rest ++ l2) k he]
      exact ih h

theorem mapSet_keys_of_mem {α : Type} (m : List (String × α)) (k : String) (v w : α)
    (h : mapGet m k = some w) :
    (mapSet m k v).map (fun e => e.1) = m.map (fun e => e.1) := by
  induction m with
  | nil => cases h
  | cons e rest ih =>
    unfold mapGet at h
    unfold mapSet
    by_cases he : e.1 = k
    · rw [if_pos he]
      simp [he]
    · rw [if_neg he] at h
      rw [if_neg he]
      simp only [List.map_cons]
      rw [ih h]

theorem filter_length_lt {α : Type} (l : List α) (p : α → Bool)
    (h : ∃ x ∈ l, p x = false) : (l.filter p).length < l.length := by
  induction l with
  | nil => obtain ⟨x, hx, _⟩ := h; cases hx
  | cons a rest ih =>
    obtain ⟨x, hx, hpx⟩ := h
    by_cases hpa : p a = true
    · simp only [List.filter_cons, hpa, if_pos, List.length_cons]
      cases hx with
      | head => rw [hpa] at hpx; cases hpx
      | tail _ hmem =>
        have := ih ⟨x, hmem, hpx⟩
        omega
    · have hfa : p a = false := Bool.eq_false_iff.mpr hpa
      have hle := List.length_filter_le p rest
      simp [List.filter_cons, hfa]
      omega

theorem exists_min_image_list (l : List String) (f : String → Nat) (hne : l ≠ []) :
    ∃ a ∈ l, ∀ b ∈ l, f a ≤ f b := by
  induction l with
  | nil => exact absurd rfl hne
  | cons x rest ih =>
    by_cases hre : rest = []
    · refine ⟨x, List.mem_cons_self x rest, ?_⟩
      intro b hb
      cases hb with
      | head => exact Nat.le_refl _
      | tail _ hmem => rw [hre] at hmem; cases hmem
    · obtain ⟨a, ha, hmin⟩ := ih hre
      by_cases hc : f x ≤ f a
      · refine ⟨x, List.mem_cons_self x rest, ?_⟩
        intro b hb
        cases hb with
        | head => exact Nat.le_refl _
        | tail _ hmem => exact Nat.le_trans hc (hmin b hmem)
      · refine ⟨a, List.mem_cons_of_mem _ ha, ?_⟩
        intro b hb
        cases hb with
        | head => exact Nat.le_of_lt (Nat.lt_of_not_le hc)
        | tail _ hmem => exact hmin b hmem

theorem dagPush_keys (dag : Dag) (k v : String) (w : List String)
    (h : mapGet dag k = some w) :
    (dagPush dag k v).map (fun e => e.1) = dag.map (fun e => e.1) := by
  unfold dagPush
  rw [h]
  exact mapSet_keys_of_mem dag k _ w h

theorem mapGet_dagPush (dag : Dag) (k v k2 : String) :
    mapGet (dagPush dag k v) k2 =
      if k2 = k then some ((mapGet dag k).getD [] ++ [v]) else mapGet dag k2 := by
  unfold dagPush
  cases hg : mapGet dag k with
  | some succs =>
    rw [mapGet_mapSet]
    by_cases hk : k2 = k
    · rw [if_pos hk, if_pos hk]
      rfl
    · rw [if_neg hk, if_neg hk]
  | none =>
    by_cases hk : k2 = k
    · subst hk
      rw [if_pos rfl, mapGet_append_none dag _ k2 hg]
      simp [mapGet]
    · rw [if_neg hk]
      cases hg2 : mapGet dag k2 with
      | some w => exact mapGet_append_some dag _ k2 w hg2
      | none =>
        rw [mapGet_append_none dag _ k2 hg2]
        unfold mapGet
        rw [if_neg (fun hh => hk hh.symm)]
        rfl

theorem addEdgesForCheck_keys (ids : List String) (cid : String) (deps : List String) :
    ∀ (dag dag2 : Dag), dag.map (fun e => e.1) = ids →
      addEdgesForCheck ids cid dag deps = .ok dag2 →
      dag2.map (fun e => e.1) = ids := by
  induction deps with
  | nil =>
    intro dag dag2 hinv h
    unfold addEdgesForCheck at h
    cases h
    exact hinv
  | cons d rest ih =>
    intro dag dag2 hinv h
    unfold addEdgesForCheck at h
    by_cases hc : ids.contains d = true
    · rw [if_pos hc] at h
      have hd : d ∈ dag.map (fun e => e.1) := by
        rw [hinv]
        exact List.elem_iff.mp hc
      obtain ⟨w, hw⟩ := Option.isSome_iff_exists.mp ((mapGet_isSome_iff dag d).mpr hd)
      have hpk := dagPush_keys dag d cid w hw
      exact ih (dagPush dag d cid) dag2 (hpk.trans hinv) h
    · rw [if_neg hc] at h
      cases h

theorem addEdgesForCheck_edges (ids : List String) (cid : String) (deps : List String) :
    ∀ (dag dag2 : Dag), addEdgesForCheck ids cid dag deps = .ok dag2 →
      ∀ m n, (n ∈ (mapGet dag2 m).getD [] ↔
        n ∈ (mapGet dag m).getD [] ∨ (m ∈ deps ∧ n = cid)) := by
  induction deps with
  | nil =>
    intro dag dag2 h m n
    unfold addEdgesForCheck at h
    cases h
    simp
  | cons d rest ih =>
    intro dag dag2 h m n
    unfold addEdgesForCheck at h
    by_cases hc : ids.contains d = true
    · rw [if_pos hc] at h
      have hstep : (mapGet (dagPush dag d cid) m).getD [] =
          if m = d then (mapGet dag m).getD [] ++ [cid] else (mapGet dag m).getD [] := by
        rw [mapGet_dagPush]
        by_cases hm : m = d
        · rw [if_pos hm, if_pos hm, hm]
          rfl
        · rw [if_neg hm, if_neg hm]
      rw [ih (dagPush dag d cid) dag2 h m n, hstep]
      by_cases hm : m = d
      · subst hm
        rw [if_pos rfl]
        constructor
        · intro hx
          cases hx with
          | inl hx =>
            cases List.mem_append.mp hx with
            | inl hy => exact Or.inl hy
            | inr hy => exact Or.inr ⟨List.mem_cons_self _ _, List.mem_singleton.mp hy⟩
          | inr hx => exact Or.inr ⟨List.mem_cons_of_mem _ hx.1, hx.2⟩
        · intro hx
          cases hx with
          | inl hx => exact Or.inl (List.mem_append.mpr (Or.inl hx))
          | inr hx =>
            cases List.mem_cons.mp hx.1 with
            | inl _ =>
              cases hx.2
              exact Or.inl (List.mem_append.mpr (Or.inr (List.mem_singleton.mpr rfl)))
            | inr hy => exact Or.inr ⟨hy, hx.2⟩
      · rw [if_neg hm]
        constructor
        · intro hx
          cases hx with
          | inl hx => exact Or.inl hx
          | inr hx => exact Or.inr ⟨List.mem_cons_of_mem _ hx.1, hx.2⟩
        · intro hx
          cases hx with
          | inl hx => exact Or.inl hx
          | inr hx =>
            cases List.mem_cons.mp hx.1 with
            | inl he => exact absurd he hm
            | inr he => exact Or.inr ⟨he, hx.2⟩
    · rw [if_neg hc] at h
      cases h

theorem addAllEdges_keys (ids : List String) (checks : List CheckDefinition) :
    ∀ (dag dag2 : Dag), dag.map (fun e => e.1) = ids →
      addAllEdges ids dag checks = .ok dag2 →
      dag2.map (fun e => e.1) = ids := by
  induction checks with
  | nil =>
    intro dag dag2 hinv h
    unfold addAllEdges at h
    cases h
    exact hinv
  | cons c rest ih =>
    intro dag dag2 hinv h
    unfold addAllEdges at h
    cases he : addEdgesForCheck ids c.metadata.id dag (depsOf c) with
    | error e => rw [he] at h; cases h
    | ok dagm =>
      rw [he] at h
      exact ih dagm dag2 (addEdgesForCheck_keys ids c.metadata.id (depsOf c) dag dagm hinv he) h

theorem addAllEdges_edges (ids : List String) (checks : List CheckDefinition) :
    ∀ (dag dag2 : Dag), addAllEdges ids dag checks = .ok dag2 →
      ∀ m n, (n ∈ (mapGet dag2 m).getD [] ↔
        n ∈ (mapGet dag m).getD [] ∨ ∃ c ∈ checks, n = c.metadata.id ∧ m ∈ depsOf c) := by
  induction checks with
  | nil =>
    intro dag dag2 h m n
    unfold addAllEdges at h
    cases h
    simp
  | cons c rest ih =>
    intro dag dag2 h m n
    unfold addAllEdges at h
    cases he : addEdgesForCheck ids c.metadata.id dag (depsOf c) with
    | error e => rw [he] at h; cases h
    | ok dagm =>
      rw [he] at h
      rw [ih dagm dag2 h m n, addEdgesForCheck_edges ids c.metadata.id (depsOf c) dag dagm he m n]
      constructor
      · rintro (⟨hx | ⟨hm, hn⟩⟩ | ⟨c2, hc2, hn, hm⟩)
        · exact Or.inl hx
        · exact Or.inr ⟨c, List.mem_cons_self _ _, hn, hm⟩
        · exact Or.inr ⟨c2, List.mem_cons_of_mem _ hc2, hn, hm⟩
      · rintro (hx | ⟨c2, hc2, hn, hm⟩)
        · exact Or.inl (Or.inl hx)
        · cases List.mem_cons.mp hc2 with
          | inl he2 => exact Or.inl (Or.inr ⟨he2 ▸ hm, he2 ▸ hn⟩)
          | inr he2 => exact Or.inr ⟨c2, he2, hn, hm⟩

theorem dagInit_getD (checks : List CheckDefinition) (m : String) :
    (mapGet (dagInit checks) m).getD ([] : List String) = [] := by
  induction checks with
  | nil => rfl
  | cons c rest ih =>
    show (mapGet ((c.metadata.id, ([] : List String)) :: dagInit rest) m).getD [] = []
    by_cases hm : c.metadata.id = m
    · unfold mapGet
      rw [if_pos hm]
      rfl
    · rw [mapGet_cons_ne _ _ _ hm]
      exact ih

theorem buildDag_keys (checks : List CheckDefinition) (dag : Dag)
    (h : buildDag checks = .ok dag) :
    dag.map (fun e => e.1) = checks.map (fun c => c.metadata.id) := by
  unfold buildDag at h
  refine addAllEdges_keys _ checks _ dag ?_ h
  unfold dagInit
  rw [List.map_map]
  rfl

theorem buildDag_edges (checks : List CheckDefinition) (dag : Dag)
    (h : buildDag checks = .ok dag) (m n : String) :
    n ∈ (mapGet dag m).getD [] ↔ ∃ c ∈ checks, n = c.metadata.id ∧ m ∈ depsOf c := by
  unfold buildDag at h
  rw [addAllEdges_edges _ checks _ dag h m n, dagInit_getD checks m]
  simp

theorem hasIncomingFrom_iff (dag : Dag) (remaining : List String) (n : String) :
    hasIncomingFrom dag remaining n = true ↔
      ∃ e ∈ dag, e.1 ∈ remaining ∧ n ∈ e.2 := by
  unfold hasIncomingFrom
  rw [List.any_eq_true]
  constructor
  · rintro ⟨e, he, hf⟩
    rw [Bool.and_eq_true] at hf
    exact ⟨e, he, List.elem_iff.mp hf.1, List.elem_iff.mp hf.2⟩
  · rintro ⟨e, he, h1, h2⟩
    refine ⟨e, he, ?_⟩
    rw [Bool.and_eq_true]
    exact ⟨List.elem_iff.mpr h1, List.elem_iff.mpr h2⟩

theorem kahnAux_ok (dag : Dag) (rank : String → Nat)
    (hrank : ∀ e ∈ dag, ∀ n ∈ e.2, rank e.1 < rank n) :
    ∀ fuel remaining, remaining.length ≤ fuel →
      ∃ bs, kahnAux dag fuel remaining = some bs := by
  intro fuel
  induction fuel with
  | zero =>
    intro remaining hlen
    have hnil : remaining = [] := List.eq_nil_of_length_eq_zero (Nat.le_zero.mp hlen)
    subst hnil
    exact ⟨[], rfl⟩
  | succ fuel ih =>
    intro remaining hlen
    by_cases hre : remaining.isEmpty = true
    · exact ⟨[], by unfold kahnAux; rw [if_pos hre]⟩
    · have hne : remaining ≠ [] := by
        intro hh
        subst hh
        exact hre rfl
      obtain ⟨a, ha, hmin⟩ := exists_min_image_list remaining rank hne
      have hnoinc : ¬ hasIncomingFrom dag remaining a = true := by
        intro hinc
        obtain ⟨e, he, hmem, hin⟩ := (hasIncomingFrom_iff dag remaining a).mp hinc
        exact Nat.lt_irrefl _ (Nat.lt_of_lt_of_le (hrank e he a hin) (hmin e.1 hmem))
      have hbatch_mem : a ∈ remaining.filter (fun n => ¬ hasIncomingFrom dag remaining n) := by
        rw [List.mem_filter]
        exact ⟨ha, by rw [decide_eq_true_eq]; exact hnoinc⟩
      have hbatch_ne :
          ¬ (remaining.filter (fun n => ¬ hasIncomingFrom dag remaining n)).isEmpty = true := by
        intro hh
        rw [List.isEmpty_iff] at hh
        rw [hh] at hbatch_mem
        cases hbatch_mem
      have hrest_len :
          (remaining.filter (fun n => hasIncomingFrom dag remaining n)).length <
            remaining.length :=
        filter_length_lt remaining _ ⟨a, ha, Bool.eq_false_iff.mpr hnoinc⟩
      obtain ⟨bs, hbs⟩ :=
        ih (remaining.filter (fun n => hasIncomingFrom dag remaining n))
          (Nat.le_of_lt_succ (Nat.lt_of_lt_of_le hrest_len hlen))
      refine ⟨remaining.filter (fun n => ¬ hasIncomingFrom dag remaining n) :: bs, ?_⟩
      unfold kahnAux
      rw [if_neg hre]
      dsimp only
      rw [if_neg hbatch_ne, hbs]

theorem kahnAux_flatten_perm (dag : Dag) :
    ∀ fuel remaining bs, kahnAux dag fuel remaining = some bs →
      bs.flatten.Perm remaining := by
  intro fuel
  induction fuel with
  | zero =>
    intro remaining bs h
    unfold kahnAux at h
    by_cases hre : remaining.isEmpty = true
    · rw [if_pos hre] at h
      cases h
      rw [List.isEmpty_iff.mp hre]
      exact List.Perm.refl _
    · rw [if_neg hre] at h
      cases h
  | succ fuel ih =>
    intro remaining bs h
    unfold kahnAux at h
    by_cases hre : remaining.isEmpty = true
    · rw [if_pos hre] at h
      cases h
      rw [List.isEmpty_iff.mp hre]
      exact List.Perm.refl _
    · rw [if_neg hre] at h
      dsimp only at h
      by_cases hb :
          (remaining.filter (fun n => ¬ hasIncomingFrom dag remaining n)).isEmpty = true
      · rw [if_pos hb] at h
        cases h
      · rw [if_neg hb] at h
        cases hk : kahnAux dag fuel (remaining.filter (fun n => hasIncomingFrom dag remaining n)) with
        | none => rw [hk] at h; cases h
        | some rest =>
          rw [hk] at h
          cases h
          rw [List.flatten_cons]
          have hperm := (ih _ rest hk).append_left
            (remaining.filter (fun n => ¬ hasIncomingFrom dag remaining n))
          refine hperm.trans ?_
          have h1 : remaining.filter (fun n => ¬ hasIncomingFrom dag remaining n) =
              remaining.filter (fun n => ! hasIncomingFrom dag remaining n) :=
            List.filter_congr (fun x _ => by cases hasIncomingFrom dag remaining x <;> rfl)
          have h2 : remaining.filter (fun n => hasIncomingFrom dag remaining n) =
              remaining.filter (fun n => ! ! hasIncomingFrom dag remaining n) :=
            List.filter_congr (fun x _ => by cases hasIncomingFrom dag remaining x <;> rfl)
          rw [h1, h2]
          exact List.filter_append_perm (fun n => ! hasIncomingFrom dag remaining n) remaining

theorem kahnAux_layering (dag : Dag) :
    ∀ fuel remaining bs, kahnAux dag fuel remaining = some bs →
      ∀ (i : Fin bs.length) (n : String), n ∈ bs.get i →
        ∀ m, (∃ e ∈ dag, e.1 = m ∧ n ∈ e.2) →
          m ∉ remaining ∨ ∃ j : Fin bs.length, j.1 < i.1 ∧ m ∈ bs.get j := by
  intro fuel
  induction fuel with
  | zero =>
    intro remaining bs h
    unfold kahnAux at h
    by_cases hre : remaining.isEmpty = true
    · rw [if_pos hre] at h
      cases h
      intro i
      exact absurd i.2 (Nat.not_lt_zero _)
    · rw [if_neg hre] at h
      cases h
  | succ fuel ih =>
    intro remaining bs h
    unfold kahnAux at h
    by_cases hre : remaining.isEmpty = true
    · rw [if_pos hre] at h
      cases h
      intro i
      exact absurd i.2 (Nat.not_lt_zero _)
    · rw [if_neg hre] at h
      dsimp only at h
      by_cases hb :
          (remaining.filter (fun n => ¬ hasIncomingFrom dag remaining n)).isEmpty = true
      · rw [if_pos hb] at h
        cases h
      · rw [if_neg hb] at h
        cases hk : kahnAux dag fuel (remaining.filter (fun n => hasIncomingFrom dag remaining n)) with
        | none => rw [hk] at h; cases h
        | some rest =>
          rw [hk] at h
          cases h
          intro i n hn m hedge
          cases i with
          | mk iv hv =>
            cases iv with
            | zero =>
              have hfil := List.mem_filter.mp hn
              have hnoinc : ¬ hasIncomingFrom dag remaining n = true := by
                have := hfil.2
                rw [decide_eq_true_eq] at this
                exact this
              left
              intro hm
              apply hnoinc
              obtain ⟨e, he, he1, hin⟩ := hedge
              exact (hasIncomingFrom_iff dag remaining n).mpr ⟨e, he, he1 ▸ hm, hin⟩
            | succ iv2 =>
              have hn2 : n ∈ rest.get ⟨iv2, Nat.lt_of_succ_lt_succ hv⟩ := hn
              cases ih _ rest hk ⟨iv2, Nat.lt_of_succ_lt_succ hv⟩ n hn2 m hedge with
              | inl hnot =>
                by_cases hm : m ∈ remaining
                · have hq : hasIncomingFrom dag remaining m = false := by
                    cases hqc : hasIncomingFrom dag remaining m with
                    | false => rfl
                    | true => exact absurd (List.mem_filter.mpr ⟨hm, hqc⟩) hnot
                  have hmb : m ∈ remaining.filter
                      (fun n => ¬ hasIncomingFrom dag remaining n) := by
                    rw [List.mem_filter]
                    refine ⟨hm, ?_⟩
                    rw [decide_eq_true_eq, hq]
                    intro hff
                    cases hff
                  exact Or.inr ⟨⟨0, Nat.zero_lt_succ _⟩, Nat.zero_lt_succ _, hmb⟩
                · exact Or.inl hm
              | inr hex =>
                obtain ⟨j2, hj2, hmj⟩ := hex
                exact Or.inr ⟨⟨j2.1 + 1, Nat.succ_lt_succ j2.2⟩, Nat.succ_lt_succ hj2, hmj⟩

theorem kahnAux_head (dag : Dag) (fuel : Nat) (remaining : List String)
    (bs : List (List String)) (h : kahnAux dag (fuel + 1) remaining = some bs)
    (hne : ¬ remaining.isEmpty = true) :
    ∃ rest, bs = remaining.filter (fun n => ¬ hasIncomingFrom dag remaining n) :: rest := by
  unfold kahnAux at h
  rw [if_neg hne] at h
  dsimp only at h
  by_cases hb : (remaining.filter (fun n => ¬ hasIncomingFrom dag remaining n)).isEmpty = true
  · rw [if_pos hb] at h
    cases h
  · rw [if_neg hb] at h
    cases hk : kahnAux dag fuel (remaining.filter (fun n => hasIncomingFrom dag remaining n)) with
    | none => rw [hk] at h; cases h
    | some rest =>
      rw [hk] at h
      cases h
      exact ⟨rest, rfl⟩

theorem flatten_nodup_index_unique {α : Type} (L : List (List α)) :
    L.flatten.Nodup →
      ∀ (i j : Fin L.length) (a : α), a ∈ L.get i → a ∈ L.get j → i = j := by
  induction L with
  | nil =>
    intro _ i
    exact absurd i.2 (Nat.not_lt_zero _)
  | cons l rest ih =>
    intro hnd i j a hi hj
    rw [List.flatten_cons, List.nodup_append] at hnd
    cases i with
    | mk iv hv =>
      cases j with
      | mk jv hw =>
        cases iv with
        | zero =>
          cases jv with
          | zero => rfl
          | succ j2 =>
            exfalso
            exact hnd.2.2 hi
              (List.mem_flatten.mpr ⟨rest.get ⟨j2, Nat.lt_of_succ_lt_succ hw⟩,
                List.get_mem rest j2 (Nat.lt_of_succ_lt_succ hw), hj⟩)
        | succ i2 =>
          cases jv with
          | zero =>
            exfalso
            exact hnd.2.2 hj
              (List.mem_flatten.mpr ⟨rest.get ⟨i2, Nat.lt_of_succ_lt_succ hv⟩,
                List.get_mem rest i2 (Nat.lt_of_succ_lt_succ hv), hi⟩)
          | succ j2 =>
            have hij := ih hnd.2.1 ⟨i2, Nat.lt_of_succ_lt_succ hv⟩
              ⟨j2, Nat.lt_of_succ_lt_succ hw⟩ a hi hj
            have hval : i2 = j2 := congrArg Fin.val hij
            subst hval
            rfl

theorem checkMapOf_lookup_aux (checks : List CheckDefinition) :
    ∀ (acc : List (String × CheckDefinition)) (k : String) (c : CheckDefinition),
      mapGet (checks.foldl (fun m c => mapSet m c.metadata.id c) acc) k = some c →
      (c ∈ checks ∧ c.metadata.id = k) ∨ mapGet acc k = some c := by
  induction checks with
  | nil =>
    intro acc k c h
    exact Or.inr h
  | cons c0 rest ih =>
    intro acc k c h
    rw [List.foldl_cons] at h
    cases ih _ k c h with
    | inl hl => exact Or.inl ⟨List.mem_cons_of_mem _ hl.1, hl.2⟩
    | inr hr =>
      rw [mapGet_mapSet] at hr
      by_cases hk : k = c0.metadata.id
      · rw [if_pos hk] at hr
        cases hr
        exact Or.inl ⟨List.mem_cons_self _ _, hk.symm⟩
      · rw [if_neg hk] at hr
        exact Or.inr hr

theorem mapGet_checkMapOf (checks : List CheckDefinition) (k : String) (c : CheckDefinition)
    (h : mapGet (checkMapOf checks) k = some c) :
    c ∈ checks ∧ c.metadata.id = k := by
  cases checkMapOf_lookup_aux checks [] k c h with
  | inl hl => exact hl
  | inr hr => cases hr

theorem foldl_mapSet_other (checks : List CheckDefinition) :
    ∀ (acc : List (String × CheckDefinition)) (k : String),
      (∀ c ∈ checks, c.metadata.id ≠ k) →
      mapGet (checks.foldl (fun m c => mapSet m c.metadata.id c) acc) k = mapGet acc k := by
  induction checks with
  | nil =>
    intro acc k _
    rfl
  | cons c0 rest ih =>
    intro acc k hne
    rw [List.foldl_cons]
    rw [ih _ k (fun c hc => hne c (List.mem_cons_of_mem _ hc))]
    rw [mapGet_mapSet]
    rw [if_neg (fun hh => hne c0 (List.mem_cons_self _ _) hh.symm)]

theorem checkMapOf_complete_aux (checks : List CheckDefinition) :
    (checks.map (fun c => c.metadata.id)).Nodup →
      ∀ (acc : List (String × CheckDefinition)) (c : CheckDefinition), c ∈ checks →
        mapGet (checks.foldl (fun m c => mapSet m c.metadata.id c) acc) c.metadata.id =
          some c := by
  induction checks with
  | nil =>
    intro _ _ c hc
    cases hc
  | cons c0 rest ih =>
    intro hnd acc c hc
    rw [List.map_cons, List.nodup_cons] at hnd
    rw [List.foldl_cons]
    cases hc with
    | head =>
      rw [foldl_mapSet_other rest _ c0.metadata.id ?hother]
      · rw [mapGet_mapSet, if_pos rfl]
      case hother =>
        intro c2 hc2 he
        exact hnd.1 (he ▸ List.mem_map_of_mem _ hc2)
    | tail _ hc2 =>
      exact ih hnd.2 _ c hc2

theorem checkMapOf_complete (checks : List CheckDefinition)
    (hnd : (checks.map (fun c => c.metadata.id)).Nodup)
    (c : CheckDefinition) (hc : c ∈ checks) :
    mapGet (checkMapOf checks) c.metadata.id = some c :=
  checkMapOf_complete_aux checks hnd [] c hc

theorem resolveBatch_ok (cm : List (String × CheckDefinition)) :
    ∀ (batch : List String), (∀ x ∈ batch, ∃ c, mapGet cm x = some c) →
      ∃ bs, resolveBatch cm batch = .ok bs := by
  intro batch
  induction batch with
  | nil =>
    intro _
    exact ⟨[], rfl⟩
  | cons x rest ih =>
    intro hall
    obtain ⟨c, hc⟩ := hall x (List.mem_cons_self _ _)
    obtain ⟨bs, hbs⟩ := ih (fun y hy => hall y (List.mem_cons_of_mem _ hy))
    refine ⟨c :: bs, ?_⟩
    unfold resolveBatch
    rw [hc, hbs]

theorem resolveBatch_corr (cm : List (String × CheckDefinition)) :
    ∀ (batch : List String) (bs : List CheckDefinition),
      resolveBatch cm batch = .ok bs →
      bs.length = batch.length ∧
        ∀ (k : Nat) (h1 : k < bs.length) (h2 : k < batch.length),
          mapGet cm (batch.get ⟨k, h2⟩) = some (bs.get ⟨k, h1⟩) := by
  intro batch
  induction batch with
  | nil =>
    intro bs h
    cases h
    exact ⟨rfl, fun k h1 _ => absurd h1 (Nat.not_lt_zero _)⟩
  | cons x rest ih =>
    intro bs h
    unfold resolveBatch at h
    cases hc : mapGet cm x with
    | none => rw [hc] at h; cases h
    | some c =>
      rw [hc] at h
      cases hr : resolveBatch cm rest with
      | error e => rw [hr] at h; cases h
      | ok cs =>
        rw [hr] at h
        cases h
        obtain ⟨hlen, hcorr⟩ := ih cs hr
        refine ⟨by rw [List.length_cons, List.length_cons, hlen], ?_⟩
        intro k h1 h2
        cases k with
        | zero => exact hc
        | succ k2 =>
          exact hcorr k2 (Nat.lt_of_succ_lt_succ h1) (Nat.lt_of_succ_lt_succ h2)

theorem resolveBatches_ok (cm : List (String × CheckDefinition)) :
    ∀ (idbs : List (List String)),
      (∀ b ∈ idbs, ∀ x ∈ b, ∃ c, mapGet cm x = some c) →
      ∃ bss, resolveBatches cm idbs = .ok bss := by
  intro idbs
  induction idbs with
  | nil =>
    intro _
    exact ⟨[], rfl⟩
  | cons b rest ih =>
    intro hall
    obtain ⟨bs, hbs⟩ := resolveBatch_ok cm b (hall b (List.mem_cons_self _ _))
    obtain ⟨bss, hbss⟩ := ih (fun b2 hb2 => hall b2 (List.mem_cons_of_mem _ hb2))
    refine ⟨bs :: bss, ?_⟩
    unfold resolveBatches
    rw [hbs, hbss]

theorem resolveBatches_corr (cm : List (String × CheckDefinition)) :
    ∀ (idbs : List (List String)) (bss : List (List CheckDefinition)),
      resolveBatches cm idbs = .ok bss →
      bss.length = idbs.length ∧
        ∀ (k : Nat) (h1 : k < bss.length) (h2 : k < idbs.length),
          resolveBatch cm (idbs.get ⟨k, h2⟩) = .ok (bss.get ⟨k, h1⟩) := by
  intro idbs
  induction idbs with
  | nil =>
    intro bss h
    cases h
    exact ⟨rfl, fun k h1 _ => absurd h1 (Nat.not_lt_zero _)⟩
  | cons b rest ih =>
    intro bss h
    unfold resolveBatches at h
    cases hb : resolveBatch cm b with
    | error e => rw [hb] at h; cases h
    | ok bs =>
      rw [hb] at h
      cases hr : resolveBatches cm rest with
      | error e => rw [hr] at h; cases h
      | ok rs =>
        rw [hr] at h
        cases h
        obtain ⟨hlen, hcorr⟩ := ih rs hr
        refine ⟨by rw [List.length_cons, List.length_cons, hlen], ?_⟩
        intro k h1 h2
        cases k with
        | zero => exact hb
        | succ k2 =>
          exact hcorr k2 (Nat.lt_of_succ_lt_succ h1) (Nat.lt_of_succ_lt_succ h2)

theorem mem_resolveBatch (cm : List (String × CheckDefinition)) (batch : List String)
    (bs : List CheckDefinition) (h : resolveBatch cm batch = .ok bs) (c : CheckDefinition) :
    c ∈ bs ↔ ∃ x ∈ batch, mapGet cm x = some c := by
  obtain ⟨hlen, hcorr⟩ := resolveBatch_corr cm batch bs h
  constructor
  · intro hc
    obtain ⟨⟨k, hk⟩, hget⟩ := List.mem_iff_get.mp hc
    refine ⟨batch.get ⟨k, hlen ▸ hk⟩, List.get_mem batch k (hlen ▸ hk), ?_⟩
    rw [hcorr k hk (hlen ▸ hk), hget]
  · rintro ⟨x, hx, hgx⟩
    obtain ⟨⟨k, hk⟩, hget⟩ := List.mem_iff_get.mp hx
    have := hcorr k (by rw [hlen]; exact hk) hk
    rw [hget, hgx] at this
    cases this
    exact List.get_mem bs k _

theorem addEdgesForCheck_ok (ids : List String) (cid : String) :
    ∀ (deps : List String) (dag : Dag), (∀ d ∈ deps, d ∈ ids) →
      ∃ dag2, addEdgesForCheck ids cid dag deps = .ok dag2 := by
  intro deps
  induction deps with
  | nil =>
    intro dag _
    exact ⟨dag, rfl⟩
  | cons d rest ih =>
    intro dag hall
    have hc : ids.contains d = true := List.elem_iff.mpr (hall d (List.mem_cons_self _ _))
    obtain ⟨dag2, h2⟩ := ih (dagPush dag d cid) (fun x hx => hall x (List.mem_cons_of_mem _ hx))
    refine ⟨dag2, ?_⟩
    unfold addEdgesForCheck
    rw [if_pos hc]
    exact h2

theorem addAllEdges_ok (ids : List String) :
    ∀ (cs : List CheckDefinition) (dag : Dag),
      (∀ c ∈ cs, ∀ d ∈ depsOf c, d ∈ ids) →
      ∃ dag2, addAllEdges ids dag cs = .ok dag2 := by
  intro cs
  induction cs with
  | nil =>
    intro dag _
    exact ⟨dag, rfl⟩
  | cons c rest ih =>
    intro dag hall
    obtain ⟨dagm, hm⟩ :=
      addEdgesForCheck_ok ids c.metadata.id (depsOf c) dag (hall c (List.mem_cons_self _ _))
    obtain ⟨dag2, h2⟩ := ih dagm (fun c2 hc2 => hall c2 (List.mem_cons_of_mem _ hc2))
    refine ⟨dag2, ?_⟩
    unfold addAllEdges
    rw [hm]
    exact h2

theorem buildDag_ok (checks : List CheckDefinition)
    (hreg : ∀ c ∈ checks, ∀ d ∈ depsOf c, d ∈ checks.map (fun c2 => c2.metadata.id)) :
    ∃ dag, buildDag checks = .ok dag :=
  addAllEdges_ok _ checks (dagInit checks) hreg

theorem kahnAux_head_any (dag : Dag) (fuel : Nat) (remaining : List String)
    (bs : List (List String)) (h : kahnAux dag fuel remaining = some bs)
    (hne : ¬ remaining.isEmpty = true) :
    ∃ rest, bs = remaining.filter (fun n => ¬ hasIncomingFrom dag remaining n) :: rest := by
  cases fuel with
  | zero =>
    unfold kahnAux at h
    rw [if_neg hne] at h
    cases h
  | succ fuel2 => exact kahnAux_head dag fuel2 remaining bs h hne

/-- **C3.** For every list of registered checks whose `dependsOn` references all
name registered checks and whose dependency graph is acyclic (witnessed by a
rank function decreasing along dependency edges, which for a finite graph is
equivalent to acyclicity), `getCheckBatches` returns a partition of the checks
into batches that is a topological layering: every check appears in exactly one
batch, batch `0` consists exactly of the checks with no dependencies, and for
every dependency edge from check `D` to check `C` (`D` listed in `C`'s
`dependsOn`) the batch index of `D` is strictly less than the batch index of
`C`. -/
theorem getCheckBatches_topological_layering (checks : List CheckDefinition)
    (hnodup : (checks.map (fun c => c.metadata.id)).Nodup)
    (hreg : ∀ c ∈ checks, ∀ d ∈ depsOf c, d ∈ checks.map (fun c2 => c2.metadata.id))
    (hacyc : ∃ rank : String → Nat,
      ∀ c ∈ checks, ∀ d ∈ depsOf c, rank d < rank c.metadata.id) :
    ∃ batches, getCheckBatches checks = .ok batches ∧
      (∀ c ∈ checks, ∃ i : Fin batches.length, c ∈ batches.get i) ∧
      (∀ (i j : Fin batches.length) (c : CheckDefinition),
        c ∈ batches.get i → c ∈ batches.get j → i = j) ∧
      (∀ i : Fin batches.length, ∀ c ∈ batches.get i, c ∈ checks) ∧
      (∀ c ∈ checks,
        (depsOf c = [] ↔ ∃ h0 : 0 < batches.length, c ∈ batches.get ⟨0, h0⟩)) ∧
      (∀ c ∈ checks, ∀ d ∈ checks, d.metadata.id ∈ depsOf c →
        ∀ (i j : Fin batches.length),
          d ∈ batches.get i → c ∈ batches.get j → i.1 < j.1) := by
  obtain ⟨rank, hrank⟩ := hacyc
  obtain ⟨dag, hdag⟩ := buildDag_ok checks hreg
  have hkeys := buildDag_keys checks dag hdag
  have hkeysnd : (dag.map (fun e => e.1)).Nodup := by
    rw [hkeys]
    exact hnodup
  have hedge := buildDag_edges checks dag hdag
  have hentry : ∀ m n, (∃ e ∈ dag, e.1 = m ∧ n ∈ e.2) ↔
      ∃ c ∈ checks, n = c.metadata.id ∧ m ∈ depsOf c := by
    intro m n
    constructor
    · rintro ⟨e, he, he1, hin⟩
      have hg : mapGet dag e.1 = some e.2 := mem_mapGet_of_nodup dag e.1 e.2 hkeysnd he
      subst he1
      refine (hedge e.1 n).mp ?_
      rw [hg]
      exact hin
    · rintro ⟨c, hc, hn, hm⟩
      have hx : n ∈ (mapGet dag m).getD [] := (hedge m n).mpr ⟨c, hc, hn, hm⟩
      cases hg : mapGet dag m with
      | none =>
        rw [hg] at hx
        cases hx
      | some succs =>
        rw [hg] at hx
        exact ⟨(m, succs), mapGet_mem dag m succs hg, rfl, hx⟩
  have hdagrank : ∀ e ∈ dag, ∀ n ∈ e.2, rank e.1 < rank n := by
    intro e he n hin
    obtain ⟨c, hc, hn, hm⟩ := (hentry e.1 n).mp ⟨e, he, rfl, hin⟩
    rw [hn]
    exact hrank c hc e.1 hm
  obtain ⟨idbs, hidbs⟩ := kahnAux_ok dag rank hdagrank (dag.map (fun e => e.1)).length
    (dag.map (fun e => e.1)) (Nat.le_refl _)
  have htopo : batchingToposort dag = .ok idbs := by
    unfold batchingToposort
    rw [hidbs]
  have hflat : idbs.flatten.Perm (dag.map (fun e => e.1)) :=
    kahnAux_flatten_perm dag _ _ idbs hidbs
  have hflatnd : idbs.flatten.Nodup := hflat.nodup_iff.mpr hkeysnd
  have hiduniq := flatten_nodup_index_unique idbs hflatnd
  have hlayer := kahnAux_layering dag _ _ idbs hidbs
  have hresall : ∀ b ∈ idbs, ∀ x ∈ b, ∃ c2, mapGet (checkMapOf checks) x = some c2 := by
    intro b hb x hx
    have hxids : x ∈ checks.map (fun c => c.metadata.id) := by
      rw [← hkeys]
      exact hflat.mem_iff.mp (List.mem_flatten.mpr ⟨b, hb, hx⟩)
    obtain ⟨c2, hc2, hcid⟩ := List.mem_map.mp hxids
    refine ⟨c2, ?_⟩
    rw [← hcid]
    exact checkMapOf_complete checks hnodup c2 hc2
  obtain ⟨batches, hres⟩ := resolveBatches_ok (checkMapOf checks) idbs hresall
  obtain ⟨hblen, hbcorr⟩ := resolveBatches_corr (checkMapOf checks) idbs batches hres
  have hrun : getCheckBatches checks = .ok batches := by
    unfold getCheckBatches
    rw [hdag]
    dsimp only
    rw [htopo]
    dsimp only
    exact hres
  have hbridge : ∀ (i : Fin batches.length) (c : CheckDefinition),
      (c ∈ batches.get i → c ∈ checks ∧ c.metadata.id ∈ idbs.get ⟨i.1, hblen ▸ i.2⟩) ∧
      (c ∈ checks → c.metadata.id ∈ idbs.get ⟨i.1, hblen ▸ i.2⟩ → c ∈ batches.get i) := by
    intro i c
    have hcorr := hbcorr i.1 i.2 (hblen ▸ i.2)
    have hmem := mem_resolveBatch (checkMapOf checks) _ _ hcorr c
    constructor
    · intro hc
      obtain ⟨x, hx, hgx⟩ := hmem.mp hc
      obtain ⟨hcin, hcid⟩ := mapGet_checkMapOf checks x c hgx
      refine ⟨hcin, ?_⟩
      rw [hcid]
      exact hx
    · intro hcin hcid
      exact hmem.mpr ⟨c.metadata.id, hcid, checkMapOf_complete checks hnodup c hcin⟩
  refine ⟨batches, hrun, ?_, ?_, ?_, ?_, ?_⟩
  · -- every check lands in some batch
    intro c hc
    have hcidkeys : c.metadata.id ∈ dag.map (fun e => e.1) := by
      rw [hkeys]
      exact List.mem_map_of_mem _ hc
    obtain ⟨b, hb, hcb⟩ := List.mem_flatten.mp (hflat.mem_iff.mpr hcidkeys)
    obtain ⟨i2, hi2⟩ := List.mem_iff_get.mp hb
    refine ⟨⟨i2.1, by rw [hblen]; exact i2.2⟩, ?_⟩
    refine (hbridge ⟨i2.1, by rw [hblen]; exact i2.2⟩ c).2 hc ?_
    rw [← hi2] at hcb
    exact hcb
  · -- uniqueness of the batch index
    intro i j c hci hcj
    have h1 := ((hbridge i c).1 hci).2
    have h2 := ((hbridge j c).1 hcj).2
    have hij := hiduniq ⟨i.1, hblen ▸ i.2⟩ ⟨j.1, hblen ▸ j.2⟩ c.metadata.id h1 h2
    have hv : i.1 = j.1 := by
      rw [Fin.mk.injEq] at hij
      exact hij
    exact Fin.ext hv
  · -- batch members are registered checks
    intro i c hc
    exact ((hbridge i c).1 hc).1
  · -- batch 0 is exactly the dependency-free checks
    intro c hc
    have hinj := List.inj_on_of_nodup_map hnodup
    have hkeysne : ¬ (dag.map (fun e => e.1)).isEmpty = true := by
      rw [List.isEmpty_iff]
      intro hh
      have : c.metadata.id ∈ dag.map (fun e => e.1) := by
        rw [hkeys]
        exact List.mem_map_of_mem _ hc
      rw [hh] at this
      cases this
    obtain ⟨restbs, hhead⟩ := kahnAux_head_any dag _ _ idbs hidbs hkeysne
    constructor
    · intro hdeps
      have hnoinc : ¬ hasIncomingFrom dag (dag.map (fun e => e.1)) c.metadata.id = true := by
        intro hinc
        obtain ⟨e, he, hm, hin⟩ := (hasIncomingFrom_iff dag _ c.metadata.id).mp hinc
        obtain ⟨c2, hc2, hn, hm2⟩ := (hentry e.1 c.metadata.id).mp ⟨e, he, rfl, hin⟩
        have hcc : c2 = c := hinj hc2 hc hn.symm
        rw [hcc, hdeps] at hm2
        cases hm2
      have hb0 : c.metadata.id ∈ (dag.map (fun e => e.1)).filter
          (fun n => ¬ hasIncomingFrom dag (dag.map (fun e => e.1)) n) := by
        rw [List.mem_filter]
        refine ⟨?_, ?_⟩
        · rw [hkeys]
          exact List.mem_map_of_mem _ hc
        · rw [decide_eq_true_eq]
          exact hnoinc
      have hlen0 : 0 < batches.length := by
        rw [hblen, hhead]
        exact Nat.zero_lt_succ _
      refine ⟨hlen0, (hbridge ⟨0, hlen0⟩ c).2 hc ?_⟩
      have hg0 : idbs.get ⟨0, hblen ▸ hlen0⟩ = (dag.map (fun e => e.1)).filter
          (fun n => ¬ hasIncomingFrom dag (dag.map (fun e => e.1)) n) := by
        rw [List.get_of_eq hhead]
        rfl
      rw [hg0]
      exact hb0
    · rintro ⟨h0, hcb⟩
      have hcid0 := ((hbridge ⟨0, h0⟩ c).1 hcb).2
      have hg0 : idbs.get ⟨0, hblen ▸ h0⟩ = (dag.map (fun e => e.1)).filter
          (fun n => ¬ hasIncomingFrom dag (dag.map (fun e => e.1)) n) := by
        rw [List.get_of_eq hhead]
        rfl
      rw [hg0, List.mem_filter, decide_eq_true_eq] at hcid0
      cases hd : depsOf c with
      | nil => rfl
      | cons d ds =>
        exfalso
        apply hcid0.2
        have hdin : d ∈ depsOf c := by
          rw [hd]
          exact List.mem_cons_self _ _
        obtain ⟨e, he, he1, hin⟩ := (hentry d c.metadata.id).mpr ⟨c, hc, rfl, hdin⟩
        refine (hasIncomingFrom_iff dag _ c.metadata.id).mpr ⟨e, he, ?_, hin⟩
        rw [he1, hkeys]
        exact hreg c hc d hdin
  · -- dependency edges point to strictly earlier batches
    intro c hc d hd hdid i j hdi hcj
    have hcidj := ((hbridge j c).1 hcj).2
    have hdidi := ((hbridge i d).1 hdi).2
    have hedge2 : ∃ e ∈ dag, e.1 = d.metadata.id ∧ c.metadata.id ∈ e.2 :=
      (hentry d.metadata.id c.metadata.id).mpr ⟨c, hc, rfl, hdid⟩
    cases hlayer ⟨j.1, hblen ▸ j.2⟩ c.metadata.id hcidj d.metadata.id hedge2 with
    | inl hnot =>
      exfalso
      apply hnot
      rw [hkeys]
      exact List.mem_map_of_mem _ hd
    | inr hex =>
      obtain ⟨j2, hj2lt, hdj2⟩ := hex
      have hji : j2 = ⟨i.1, hblen ▸ i.2⟩ := hiduniq j2 ⟨i.1, hblen ▸ i.2⟩ d.metadata.id hdj2 hdidi
      have : j2.1 = i.1 := congrArg Fin.val hji
      rw [this] at hj2lt
      exact hj2lt

/-- Witness for the planner layering theorem: the two-check registry
`plan-a ← plan-b` satisfies the hypotheses (distinct ids, registered
dependencies, ranked acyclically) and so is batched topologically. -/
theorem getCheckBatches_topological_layering_witness :
    ∃ batches, getCheckBatches [planCheckA, planCheckB] = .ok batches ∧
      (∀ c ∈ [planCheckA, planCheckB], ∃ i : Fin batches.length, c ∈ batches.get i) ∧
      (∀ (i j : Fin batches.length) (c : CheckDefinition),
        c ∈ batches.get i → c ∈ batches.get j → i = j) ∧
      (∀ i : Fin batches.length, ∀ c ∈ batches.get i, c ∈ [planCheckA, planCheckB]) ∧
      (∀ c ∈ [planCheckA, planCheckB],
        (depsOf c = [] ↔ ∃ h0 : 0 < batches.length, c ∈ batches.get ⟨0, h0⟩)) ∧
      (∀ c ∈ [planCheckA, planCheckB], ∀ d ∈ [planCheckA, planCheckB],
        d.metadata.id ∈ depsOf c →
        ∀ (i j : Fin batches.length),
          d ∈ batches.get i → c ∈ batches.get j → i.1 < j.1) :=
  getCheckBatches_topological_layering [planCheckA, planCheckB] (by decide) (by decide)
    ⟨fun s => if s = "plan-a" then 0 else 1, by decide⟩
